import Mathlib

/-!
# Verification of the hft.js trading engine core

A shallow embedding, in Lean 4, of the parts of the hft.js source that the
verified properties speak about: the tape classifier (`src/tape.ts`), the bar
aggregator (`src/bar.ts`), the bar merge helper (`src/utils.ts`), the position
accounting, rate-query queue, order statistics and order submission of the
trading coordinator (`src/trader.ts`), and the market router's login handler
(`src/market.ts`).

JavaScript numbers are modelled as exact rationals (`ℚ`): every arithmetic
operation the embedded code performs (addition, subtraction, comparison) is
exact on the values in play, so `ℚ` is faithful for them.  The IEEE-754
sentinel constants `Number.MAX_VALUE` and `Number.MIN_VALUE` are embedded by
their exact rational values.  JavaScript objects used as price → volume maps
are embedded as association lists where an update rewrites the first matching
key (a JS object holds each key once).  Fallible JS accesses (out-of-bounds
array reads giving `undefined`, thrown errors) are embedded with `Option` and
`Except`.
-/

/-- `Number.MAX_VALUE`, the largest finite IEEE-754 double, exactly:
`(2^53 − 1) · 2^971`. -/
def jsMaxValue : ℚ := (2 ^ 53 - 1) * 2 ^ 971

/-- `Number.MIN_VALUE`, the smallest positive IEEE-754 double (a subnormal),
exactly `2^(−1074)`.  Note it is positive, not the most negative double. -/
def jsMinValue : ℚ := 1 / 2 ^ 1074

theorem jsMinValue_pos : 0 < jsMinValue := by norm_num [jsMinValue]

/-- One side of the best-5 order book (`typedef.ts`, `TapeSide`): dense price
and volume arrays. -/
structure TapeSide where
  price : List ℚ
  volume : List ℚ
deriving DecidableEq, Repr

structure OrderBook where
  asks : TapeSide
  bids : TapeSide
deriving DecidableEq, Repr

structure PriceRange where
  upper : ℚ
  lower : ℚ
deriving DecidableEq, Repr

/-- `typedef.ts` `TickData`. -/
structure TickData where
  symbol : String
  date : ℤ
  time : ℚ
  tradingDay : ℤ
  preOpenInterest : ℚ
  preClose : ℚ
  openInterest : ℚ
  openPrice : ℚ
  highPrice : ℚ
  lowPrice : ℚ
  lastPrice : ℚ
  volume : ℚ
  amount : ℚ
  limits : PriceRange
  bandings : PriceRange
  orderBook : OrderBook
deriving DecidableEq, Repr

inductive TapeType
  | open_ | close | dualOpen | dualClose | turnover | noDeal
deriving DecidableEq, Repr

inductive TapeDirection
  | up | down | none
deriving DecidableEq, Repr

inductive TapeStatus
  | openLong | openShort | closeShort | closeLong
  | turnoverLong | turnoverShort | dualOpen | dualClose | invalid
deriving DecidableEq, Repr

/-- `tape.ts` `TapeData` as `calcTapeData` builds it. -/
structure TapeData where
  symbol : String
  date : ℤ
  time : ℚ
  volumeDelta : ℚ
  interestDelta : ℚ
  type : TapeType
  direction : TapeDirection
  status : TapeStatus
deriving DecidableEq, Repr

/-- `tape.ts` `calcTapeType`. -/
def calcTapeType (volumeDelta interestDelta : ℚ) : TapeType :=
  if 0 < interestDelta then
    if volumeDelta = interestDelta then .dualOpen else .open_
  else if interestDelta < 0 then
    if volumeDelta + interestDelta = 0 then .dualClose else .close
  else if 0 < volumeDelta then .turnover
  else .noDeal

/-- The head of a JS price array with a default for the missing case: in
`tape.ts` this is `tick.orderBook.asks.price[0] ?? dflt`. -/
def headOr (l : List ℚ) (dflt : ℚ) : ℚ := l.headD dflt

/-- `tape.ts` `calcTapeDirection`. -/
def calcTapeDirection (tick : TickData) (preTick : Option TickData) :
    TapeDirection :=
  let lastPrice := tick.lastPrice
  match preTick with
  | some preTick =>
    let preAskPrice1 := headOr preTick.orderBook.asks.price jsMaxValue
    if preAskPrice1 ≤ lastPrice then .up
    else
      let preBidPrice1 := headOr preTick.orderBook.bids.price jsMinValue
      if lastPrice ≤ preBidPrice1 then .down
      else
        let askPrice1 := headOr tick.orderBook.asks.price jsMaxValue
        if askPrice1 ≤ lastPrice then .up
        else
          let bidPrice1 := headOr tick.orderBook.bids.price jsMinValue
          if lastPrice ≤ bidPrice1 then .down
          else
            let prePrice := preTick.lastPrice
            if prePrice < lastPrice then .up
            else if lastPrice < prePrice then .down
            else if preAskPrice1 ≤ bidPrice1 then .up
            else if askPrice1 ≤ preBidPrice1 then .down
            else .none
  | none =>
    let askPrice1 := headOr tick.orderBook.asks.price jsMaxValue
    if askPrice1 ≤ lastPrice then .up
    else
      let bidPrice1 := headOr tick.orderBook.bids.price jsMinValue
      if lastPrice ≤ bidPrice1 then .down
      else if tick.preClose < lastPrice then .up
      else if lastPrice < tick.preClose then .down
      else .none

/-- `tape.ts` `calcTapeStatus`. -/
def calcTapeStatus (tapeType : TapeType) (tapeDirection : TapeDirection) :
    TapeStatus :=
  if tapeType = .open_ ∧ tapeDirection = .up then .openLong
  else if tapeType = .open_ ∧ tapeDirection = .down then .openShort
  else if tapeType = .close ∧ tapeDirection = .up then .closeShort
  else if tapeType = .close ∧ tapeDirection = .down then .closeLong
  else if tapeType = .turnover ∧ tapeDirection = .up then .turnoverLong
  else if tapeType = .turnover ∧ tapeDirection = .down then .turnoverShort
  else if tapeType = .dualOpen then .dualOpen
  else if tapeType = .dualClose then .dualClose
  else .invalid

/-- `tape.ts` `calcTapeData`. -/
def calcTapeData (tick : TickData) (preTick : Option TickData) : TapeData :=
  let vi := match preTick with
    | some preTick =>
        (tick.volume - preTick.volume, tick.openInterest - preTick.openInterest)
    | none => (tick.volume, tick.openInterest - tick.preOpenInterest)
  let tapeType := calcTapeType vi.1 vi.2
  let tapeDirection := calcTapeDirection tick preTick
  let tapeStatus := calcTapeStatus tapeType tapeDirection
  { symbol := tick.symbol
    date := tick.date
    time := tick.time
    volumeDelta := vi.1
    interestDelta := vi.2
    type := tapeType
    direction := tapeDirection
    status := tapeStatus }

/-! ## C5 — tape type and delta computation -/

/-- The tape-type rule exactly as the specification phrases it:
ΔOI > 0 and Δvolume = ΔOI → dual-open, else open; ΔOI < 0 and
Δvolume + ΔOI = 0 → dual-close, else close; ΔOI = 0 and Δvolume > 0 →
turnover; otherwise no-deal. -/
def tapeTypeSpec (volumeDelta interestDelta : ℚ) : TapeType :=
  if 0 < interestDelta ∧ volumeDelta = interestDelta then .dualOpen
  else if 0 < interestDelta then .open_
  else if interestDelta < 0 ∧ volumeDelta + interestDelta = 0 then .dualClose
  else if interestDelta < 0 then .close
  else if interestDelta = 0 ∧ 0 < volumeDelta then .turnover
  else .noDeal

theorem calcTapeType_eq_spec (v i : ℚ) : calcTapeType v i = tapeTypeSpec v i := by
  unfold calcTapeType tapeTypeSpec
  rcases lt_trichotomy i 0 with hi | hi | hi
  · have h1 : ¬ (0 : ℚ) < i := by linarith
    by_cases hd : v + i = 0 <;> simp [h1, hi, hd]
  · subst hi
    by_cases hv : (0 : ℚ) < v <;> simp [hv]
  · have h2 : ¬ i < 0 := by linarith
    by_cases hd : v = i <;> simp [hi, h2, hd]

/-- C5 — Tape type and delta computation: `calcTapeData` computes
Δvolume and Δinterest against the previous tick when one exists and against
`preOpenInterest` otherwise, and classifies the tape type exactly by the
spec's rule table. -/
theorem C5_tape_delta_and_type (tick : TickData) (preTick : Option TickData) :
    (calcTapeData tick preTick).volumeDelta =
      (match preTick with
        | some p => tick.volume - p.volume
        | none => tick.volume) ∧
    (calcTapeData tick preTick).interestDelta =
      (match preTick with
        | some p => tick.openInterest - p.openInterest
        | none => tick.openInterest - tick.preOpenInterest) ∧
    (calcTapeData tick preTick).type =
      tapeTypeSpec (calcTapeData tick preTick).volumeDelta
        (calcTapeData tick preTick).interestDelta := by
  refine ⟨?_, ?_, ?_⟩ <;> cases preTick <;>
    simp [calcTapeData, calcTapeType_eq_spec]

/-! ## C6 — the missing-bid sentinel

`tape.ts` line 49 and line 93 use `Number.MIN_VALUE` as the default for a
missing best bid.  `Number.MIN_VALUE` is the smallest *positive* double
(`2^(−1074)`), not negative infinity, so the rule `lastPrice <= bidPrice1`
still fires whenever `lastPrice ≤ 2^(−1074)` — in particular at
`lastPrice = 0`. -/

/-- The first-tick direction rule as the specification states it: compare
against current best ask/bid, then against `preClose`; a missing ask behaves
as +∞ and a missing bid as −∞, so the corresponding comparison never fires.
(Modelled from the spec for comparison against the code's behaviour.) -/
def tapeDirectionSpecNoPrev (tick : TickData) : TapeDirection :=
  if tick.orderBook.asks.price.head?.elim false fun a => decide (a ≤ tick.lastPrice)
  then .up
  else if tick.orderBook.bids.price.head?.elim false fun b => decide (tick.lastPrice ≤ b)
  then .down
  else if tick.preClose < tick.lastPrice then .up
  else if tick.lastPrice < tick.preClose then .down
  else .none

/-- A tick with an empty order book, `lastPrice = 0` and `preClose = 0`. -/
def tickEmptyBook : TickData :=
  { symbol := "X.DCE"
    date := 20250102
    time := 90000
    tradingDay := 20250102
    preOpenInterest := 3
    preClose := 0
    openInterest := 5
    openPrice := 0
    highPrice := 0
    lowPrice := 0
    lastPrice := 0
    volume := 10
    amount := 0
    limits := ⟨0, 0⟩
    bandings := ⟨0, 0⟩
    orderBook := ⟨⟨[], []⟩, ⟨[], []⟩⟩ }

/-- C6 — the missing best bid does not behave as −∞: on a tick with an empty
bid side and `lastPrice = 0`, the code's `lastPrice <= Number.MIN_VALUE`
comparison fires and classifies the direction as `down`, while the spec's
−∞-sentinel fall-through (compare against `preClose`, here equal) gives
`none`. -/
theorem C6_min_value_sentinel_fires :
    calcTapeDirection tickEmptyBook none = .down ∧
    tapeDirectionSpecNoPrev tickEmptyBook = .none := by
  constructor
  · show (if jsMaxValue ≤ (0 : ℚ) then TapeDirection.up
      else if (0 : ℚ) ≤ jsMinValue then .down
      else if (0 : ℚ) < 0 then .up
      else if (0 : ℚ) < 0 then .down
      else .none) = .down
    rw [if_neg (by norm_num [jsMaxValue]), if_pos (le_of_lt jsMinValue_pos)]
  · decide

/-! ## The bar aggregator (`bar.ts`) and bar merging (`utils.ts`)

JS objects keyed by price are embedded as association lists; `bumpVol`
mirrors `if (p in m) m[p] += v else m[p] = v` by rewriting the first
occurrence of the key (a JS object holds each key at most once). -/

/-- JS `Math.max` on two numbers (neither is NaN in the embedded flows). -/
def jsMax (a b : ℚ) : ℚ := if a ≤ b then b else a

/-- JS `Math.min` on two numbers. -/
def jsMin (a b : ℚ) : ℚ := if a ≤ b then a else b

/-- JS `Math.floor`. -/
def jsFloor (q : ℚ) : ℤ := ⌊q⌋

/-- Lookup of a price key, first occurrence (JS property access `m[p]`). -/
def lookupVol : List (ℚ × ℚ) → ℚ → Option ℚ
  | [], _ => none
  | (q, w) :: rest, p => if p = q then some w else lookupVol rest p

/-- `if (p in m) { m[p] += v } else { m[p] = v }`. -/
def bumpVol : List (ℚ × ℚ) → ℚ → ℚ → List (ℚ × ℚ)
  | [], p, v => [(p, v)]
  | (q, w) :: rest, p, v =>
      if p = q then (q, w + v) :: rest else (q, w) :: bumpVol rest p v

def sumVals (m : List (ℚ × ℚ)) : ℚ := (m.map Prod.snd).sum

def mapKeys (m : List (ℚ × ℚ)) : List ℚ := m.map Prod.fst

/-- `m[p] ?? 0`. -/
def mval (m : List (ℚ × ℚ)) (p : ℚ) : ℚ := (lookupVol m p).getD 0

/-- `typedef.ts` `BarData` (and its writeable `BarInfo`). -/
structure BarData where
  symbol : String
  date : ℤ
  time : ℚ
  openInterest : ℚ
  openPrice : ℚ
  highPrice : ℚ
  lowPrice : ℚ
  closePrice : ℚ
  volume : ℚ
  amount : ℚ
  delta : ℚ
  poc : ℚ
  buyVolumes : List (ℚ × ℚ)
  sellVolumes : List (ℚ × ℚ)
deriving DecidableEq, Repr

/-- `utils.ts` `getBarBuyVolume`: `bar.buyVolumes[price] ?? 0`. -/
def getBarBuyVolume (bar : BarData) (price : ℚ) : ℚ :=
  mval bar.buyVolumes price

/-- `utils.ts` `getBarSellVolume`: `bar.sellVolumes[price] ?? 0`. -/
def getBarSellVolume (bar : BarData) (price : ℚ) : ℚ :=
  mval bar.sellVolumes price

/-- `utils.ts` `getBarVolume`. -/
def getBarVolume (bar : BarData) (price : ℚ) : ℚ :=
  getBarBuyVolume bar price + getBarSellVolume bar price

/-- The slice of `TapeData` that `BarGenerator.onTick` reads (`volumeDelta`,
`amountDelta`, `direction`). -/
structure BarTape where
  volumeDelta : ℚ
  amountDelta : ℚ
  direction : TapeDirection
deriving DecidableEq, Repr

/-- A bar receiver: an id and whether it declared the optional `onUpdateBar`
hook. -/
structure BarReceiver where
  rid : ℕ
  hasUpdate : Bool
deriving DecidableEq, Repr

/-- `bar.ts` `BarGenerator` state: configured symbol, `maxVolume` (0 means
time-bucket mode), attached receivers, the `shouldUpdate` counter, and the
in-progress bar. -/
structure BarGen where
  symbol : String
  maxVolume : ℚ
  receivers : List BarReceiver
  shouldUpdate : ℕ
  bar : Option BarData
deriving DecidableEq, Repr

/-- A callback the generator performs on a receiver. -/
inductive BarEvent
  | onBar (rid : ℕ) (bar : BarData)
  | onUpdateBar (rid : ℕ) (bar : BarData)
deriving DecidableEq, Repr

def BarEvent.bar : BarEvent → BarData
  | .onBar _ b => b
  | .onUpdateBar _ b => b

/-- `bar.ts` `_createBar`. -/
def createBar (symbol : String) (date : ℤ) (time : ℚ) (tick : TickData) :
    BarData :=
  { symbol := symbol
    date := date
    time := time
    openInterest := tick.openInterest
    openPrice := tick.lastPrice
    highPrice := tick.lastPrice
    lowPrice := tick.lastPrice
    closePrice := tick.lastPrice
    volume := 0
    amount := 0
    delta := 0
    poc := tick.lastPrice
    buyVolumes := []
    sellVolumes := [] }

/-- The POC promotion check of `BarGenerator.onTick` (`bar.ts` lines
229–236), applied to the bar after volume apportioning. -/
def pocCheck (bar : BarData) (lastPrice : ℚ) (dir : TapeDirection) : BarData :=
  if lastPrice ≠ bar.poc ∧ dir ≠ .none then
    if getBarVolume bar bar.poc < getBarVolume bar lastPrice then
      { bar with poc := lastPrice }
    else bar
  else bar

/-- The mutation block of `BarGenerator.onTick` on an existing (or freshly
created) bar: OHLC/volume/amount update, apportioning by tape direction, and
the POC promotion check. -/
def updateBar (bar : BarData) (tick : TickData) (tape : BarTape) : BarData :=
  let bar := { bar with
    openInterest := tick.openInterest
    closePrice := tick.lastPrice
    highPrice := jsMax bar.highPrice tick.lastPrice
    lowPrice := jsMin bar.lowPrice tick.lastPrice
    volume := bar.volume + tape.volumeDelta
    amount := bar.amount + tape.amountDelta }
  let bar := match tape.direction with
    | .up => { bar with
        buyVolumes := bumpVol bar.buyVolumes tick.lastPrice tape.volumeDelta
        delta := bar.delta + tape.volumeDelta }
    | .down => { bar with
        sellVolumes := bumpVol bar.sellVolumes tick.lastPrice tape.volumeDelta
        delta := bar.delta - tape.volumeDelta }
    | .none => bar
  pocCheck bar tick.lastPrice tape.direction

/-- The bucket key of `BarGenerator.onTick`: the raw tick time in volume
mode, `Math.floor(time / 100) * 100` (one-minute buckets) in time mode. -/
def bucketTime (g : BarGen) (tick : TickData) : ℚ :=
  if 0 < g.maxVolume then tick.time else (jsFloor (tick.time / 100) : ℚ) * 100

/-- The `isFinished` test of `BarGenerator.onTick`. -/
def barFinished (g : BarGen) (bar : BarData) (date : ℤ) (time : ℚ) : Bool :=
  if 0 < g.maxVolume then g.maxVolume ≤ bar.volume
  else bar.date ≠ date ∨ bar.time ≠ time

/-- `bar.ts` `BarGenerator.onTick`: the transition on one `(tick, tape)`
input, returning the new state and the receiver callbacks performed. -/
def BarGen.onTick (g : BarGen) (tick : TickData) (tape : BarTape) :
    BarGen × List BarEvent :=
  if tick.symbol ≠ g.symbol then (g, [])
  else
    let date := tick.date
    let time := bucketTime g tick
    let finished :=
      match g.bar with
      | some bar =>
          if barFinished g bar date time then
            (({ g with bar := none } : BarGen),
              g.receivers.map fun (r : BarReceiver) => BarEvent.onBar r.rid bar)
          else (g, ([] : List BarEvent))
      | none => (g, [])
    let g := finished.1
    let evs := finished.2
    if tape.volumeDelta = 0 then (g, evs)
    else
      let bar0 := match g.bar with
        | some bar => bar
        | none => createBar g.symbol date time tick
      let bar := updateBar bar0 tick tape
      let updEvs :=
        if 0 < g.shouldUpdate then
          (g.receivers.filter fun (r : BarReceiver) => r.hasUpdate).map
            fun r => BarEvent.onUpdateBar r.rid bar
        else []
      ({ g with bar := some bar }, evs ++ updEvs)

/-- Run the generator over a list of `(tick, tape)` inputs, collecting all
callbacks. -/
def BarGen.run (g : BarGen) : List (TickData × BarTape) → BarGen × List BarEvent
  | [] => (g, [])
  | x :: rest =>
      let step := g.onTick x.1 x.2
      let tail := step.1.run rest
      (tail.1, step.2 ++ tail.2)

/-! ## C4 — `utils.ts` `mergeBarData` -/

/-- One buy-map entry of a later bar folded into the accumulator
(`utils.ts` lines 65–80): bump the merged buy map, add to delta, then the
POC promotion check against the merged totals. -/
def mergeAccBuy (acc : BarData) (pv : ℚ × ℚ) : BarData :=
  let acc := { acc with
    buyVolumes := bumpVol acc.buyVolumes pv.1 pv.2
    delta := acc.delta + pv.2 }
  if getBarVolume acc acc.poc < getBarBuyVolume acc pv.1 + getBarSellVolume acc pv.1
  then { acc with poc := pv.1 } else acc

/-- One sell-map entry folded in (`utils.ts` lines 82–97). -/
def mergeAccSell (acc : BarData) (pv : ℚ × ℚ) : BarData :=
  let acc := { acc with
    sellVolumes := bumpVol acc.sellVolumes pv.1 pv.2
    delta := acc.delta - pv.2 }
  if getBarVolume acc acc.poc < getBarSellVolume acc pv.1 + getBarBuyVolume acc pv.1
  then { acc with poc := pv.1 } else acc

/-- The body of `mergeBarData`'s loop for one later bar. -/
def mergeFoldOne (acc nxt : BarData) : BarData :=
  let acc := { acc with
    openInterest := nxt.openInterest
    closePrice := nxt.closePrice
    highPrice := jsMax acc.highPrice nxt.highPrice
    lowPrice := jsMin acc.lowPrice nxt.lowPrice
    volume := acc.volume + nxt.volume
    amount := acc.amount + nxt.amount }
  let acc := nxt.buyVolumes.foldl mergeAccBuy acc
  nxt.sellVolumes.foldl mergeAccSell acc

/-- `utils.ts` `mergeBarData`.  The empty list throws (`Except.error`); a
one-element list executes `return bars[1]`, an out-of-bounds read that yields
JS `undefined`, embedded as `Option.none`; otherwise the accumulator starts
from `bars[0]` — with `amount` initialised from `bars[0].volume`, as the
source literally does — and the loop folds in the later bars. -/
def mergeBarData : List BarData → Except String (Option BarData)
  | [] => .error "Bars is empty"
  | [_] => .ok Option.none
  | b0 :: rest => .ok (some (rest.foldl mergeFoldOne { b0 with amount := b0.volume }))

/-- A concrete, unremarkable bar. -/
def sampleBar : BarData :=
  { symbol := "X.DCE"
    date := 20250102
    time := 90000
    openInterest := 7
    openPrice := 100
    highPrice := 102
    lowPrice := 99
    closePrice := 101
    volume := 8
    amount := 805
    delta := 2
    poc := 101
    buyVolumes := [(101, 5)]
    sellVolumes := [(100, 3)]
  }

/-- C4 — the single-element round trip fails: `mergeBarData([b])` executes
`return bars[1]`, an out-of-bounds access producing `undefined` instead of
`b`.  Additionally, the two-element merge initialises the accumulated
`amount` from `bars[0].volume`, so the merged amount is
`b.volume + b.amount` (= 813 here) rather than the correct `2 · b.amount`. -/
theorem C4_merge_single_element_undefined :
    mergeBarData [sampleBar] = .ok Option.none ∧
    mergeBarData [sampleBar] ≠ .ok (some sampleBar) ∧
    (mergeBarData [sampleBar, sampleBar]).toOption.join.map BarData.amount =
      some (sampleBar.volume + sampleBar.amount) := by
  refine ⟨rfl, ?_, by
    norm_num [mergeBarData, mergeFoldOne, mergeAccBuy, mergeAccSell, bumpVol,
      getBarVolume, getBarBuyVolume, getBarSellVolume, mval, lookupVol,
      sampleBar, jsMax, jsMin, Except.toOption, Option.join]⟩
  intro h
  rw [show mergeBarData [sampleBar] = .ok Option.none from rfl] at h
  exact Option.noConfusion (Except.ok.inj h)

/-! ## C10 — the bar generator ignores foreign symbols -/

/-- C10 — Frame property of `BarGenerator.onTick`: a tick whose symbol is not
the generator's leaves the whole generator state unchanged and performs no
`onBar` or `onUpdateBar` callback. -/
theorem C10_onTick_foreign_symbol_frame (g : BarGen) (tick : TickData)
    (tape : BarTape) (h : tick.symbol ≠ g.symbol) :
    g.onTick tick tape = (g, []) := by
  simp [BarGen.onTick, h]

/-- A generator configured for a different symbol than `tickEmptyBook`'s. -/
def barGenOther : BarGen :=
  { symbol := "Y.DCE", maxVolume := 0, receivers := [⟨1, true⟩],
    shouldUpdate := 1, bar := Option.none }

theorem C10_onTick_foreign_symbol_frame_witness :
    barGenOther.onTick tickEmptyBook ⟨5, 500, .up⟩ = (barGenOther, []) :=
  C10_onTick_foreign_symbol_frame barGenOther tickEmptyBook ⟨5, 500, .up⟩
    (by decide)

/-! ## C7 — bar volume / delta / POC invariant -/

theorem sumVals_bumpVol (m : List (ℚ × ℚ)) (p v : ℚ) :
    sumVals (bumpVol m p v) = sumVals m + v := by
  induction m with
  | nil => simp [bumpVol, sumVals]
  | cons hd tl ih =>
    obtain ⟨q, w⟩ := hd
    by_cases h : p = q
    · simp only [bumpVol, if_pos h, sumVals, List.map_cons, List.sum_cons]
      ring
    · simp only [bumpVol, if_neg h, sumVals, List.map_cons, List.sum_cons] at ih ⊢
      rw [ih]; ring


theorem mval_bumpVol (m : List (ℚ × ℚ)) (p v x : ℚ) :
    mval (bumpVol m p v) x = mval m x + if x = p then v else 0 := by
  induction m with
  | nil => by_cases h : x = p <;> simp [bumpVol, mval, lookupVol, h]
  | cons hd tl ih =>
    obtain ⟨q, w⟩ := hd
    by_cases hpq : p = q
    · subst hpq
      by_cases hx : x = p <;> simp [bumpVol, mval, lookupVol, hx]
    · by_cases hx : x = q
      · have hqp : ¬ q = p := fun hh => hpq hh.symm
        simp [bumpVol, hpq, mval, lookupVol, hx, hqp]
      · simp only [bumpVol, if_neg hpq, mval, lookupVol, if_neg hx] at ih ⊢
        exact ih

theorem mem_mapKeys_bumpVol (m : List (ℚ × ℚ)) (p v x : ℚ)
    (hx : x ∈ mapKeys (bumpVol m p v)) : x = p ∨ x ∈ mapKeys m := by
  induction m with
  | nil =>
    simp only [bumpVol, mapKeys, List.map_cons, List.map_nil,
      List.mem_singleton] at hx
    exact Or.inl hx
  | cons hd tl ih =>
    obtain ⟨q, w⟩ := hd
    simp only [bumpVol] at hx
    by_cases hpq : p = q
    · rw [if_pos hpq] at hx
      simp only [mapKeys, List.map_cons, List.mem_cons] at hx ⊢
      tauto
    · rw [if_neg hpq] at hx
      simp only [mapKeys, List.map_cons, List.mem_cons] at hx ⊢
      rcases hx with hx | hx
      · tauto
      · rcases ih hx with hx | hx <;> tauto

/-- The bar invariant of the claim, split into its three conjuncts: the
signed order flow, the volume bound (the claim asserts equality — see the
counterexample — the code guarantees the inequality), and POC maximality
over every price present in the buy or sell map. -/
def barInv (b : BarData) : Prop :=
  b.delta = sumVals b.buyVolumes - sumVals b.sellVolumes ∧
  sumVals b.buyVolumes + sumVals b.sellVolumes ≤ b.volume ∧
  ∀ p ∈ mapKeys b.buyVolumes ++ mapKeys b.sellVolumes,
    getBarVolume b p ≤ getBarVolume b b.poc

theorem barInv_createBar (symbol : String) (date : ℤ) (time : ℚ)
    (tick : TickData) : barInv (createBar symbol date time tick) := by
  refine ⟨by simp [createBar, sumVals], by simp [createBar, sumVals], ?_⟩
  intro p hp
  simp [createBar, mapKeys] at hp

/-- POC maximality is preserved by one volume-apportioning step: the totals
grow by `Δ ≥ 0` at the traded price `q` only, the key set grows by at most
`q`, and the new POC is the one the promotion check (`if totals(poc) <
totals(q)` at `q ≠ poc`) selects. -/
theorem pocMax_step (totalO totalN : ℚ → ℚ) (keysN keysO : List ℚ)
    (poc newPoc q Δ : ℚ) (hΔ : 0 ≤ Δ)
    (htot : ∀ x, totalN x = totalO x + if x = q then Δ else 0)
    (hsub : ∀ x ∈ keysN, x = q ∨ x ∈ keysO)
    (hold : ∀ x ∈ keysO, totalO x ≤ totalO poc)
    (houtcome :
      (q = poc ∧ newPoc = poc) ∨
      (¬ q = poc ∧ totalN poc < totalN q ∧ newPoc = q) ∨
      (¬ q = poc ∧ ¬ totalN poc < totalN q ∧ newPoc = poc)) :
    ∀ x ∈ keysN, totalN x ≤ totalN newPoc := by
  intro x hx
  rcases houtcome with ⟨hq, hnew⟩ | ⟨hq, hpromo, hnew⟩ | ⟨hq, hpromo, hnew⟩
  · rw [hnew]
    by_cases hxq : x = q
    · rw [hxq, hq]
    · rcases (hsub x hx).resolve_left hxq with hxo
      rw [htot x, htot poc, if_neg hxq, if_pos hq.symm, add_zero]
      have := hold x hxo
      linarith
  · rw [hnew]
    by_cases hxq : x = q
    · rw [hxq]
    · rcases (hsub x hx).resolve_left hxq with hxo
      have h1 := hold x hxo
      have h2 := htot x
      have h3 := htot poc
      rw [if_neg hxq, add_zero] at h2
      rw [if_neg (fun hh : poc = q => hq hh.symm), add_zero] at h3
      rw [h2]
      calc totalO x ≤ totalO poc := h1
        _ = totalN poc := h3.symm
        _ ≤ totalN q := le_of_lt hpromo
  · rw [hnew]
    by_cases hxq : x = q
    · rw [hxq]
      exact not_lt.mp hpromo
    · rcases (hsub x hx).resolve_left hxq with hxo
      have h1 := hold x hxo
      have h2 := htot x
      have h3 := htot poc
      rw [if_neg hxq, add_zero] at h2
      rw [if_neg (fun hh : poc = q => hq hh.symm), add_zero] at h3
      rw [h2, h3]
      exact h1


/-- `pocCheck` only ever changes the `poc` field, and does so exactly when
the price differs from the current POC, the direction is not `none`, and the
traded price's total strictly exceeds the POC's. -/
theorem pocCheck_eq (bar : BarData) (lp : ℚ) (dir : TapeDirection) :
    ∃ newPoc, pocCheck bar lp dir = { bar with poc := newPoc } ∧
      ((newPoc = bar.poc ∧ (lp = bar.poc ∨ dir = .none ∨
          ¬ getBarVolume bar bar.poc < getBarVolume bar lp)) ∨
       (newPoc = lp ∧ ¬ lp = bar.poc ∧
          getBarVolume bar bar.poc < getBarVolume bar lp)) := by
  unfold pocCheck
  by_cases hc : lp ≠ bar.poc ∧ dir ≠ .none
  · rw [if_pos hc]
    by_cases hpromo : getBarVolume bar bar.poc < getBarVolume bar lp
    · exact ⟨lp, by rw [if_pos hpromo], Or.inr ⟨rfl, hc.1, hpromo⟩⟩
    · exact ⟨bar.poc, by rw [if_neg hpromo], Or.inl ⟨rfl, Or.inr (Or.inr hpromo)⟩⟩
  · refine ⟨bar.poc, by rw [if_neg hc], Or.inl ⟨rfl, ?_⟩⟩
    rcases not_and_or.mp hc with h | h
    · exact Or.inl (not_not.mp h)
    · exact Or.inr (Or.inl (not_not.mp h))

theorem pocCheck_none (bar : BarData) (lp : ℚ) :
    pocCheck bar lp .none = bar := by
  unfold pocCheck
  rw [if_neg (fun hc => hc.2 rfl)]

/-- The bar invariant holds after the POC check whenever the apportioned
totals grew by `Δ ≥ 0` at the traded price only and the old POC was maximal
over the old keys. -/
theorem barInv_pocCheck (bar2 : BarData) (lp Δ : ℚ) (dir : TapeDirection)
    (buyO sellO : List (ℚ × ℚ))
    (hdir : dir ≠ .none) (hΔ : 0 ≤ Δ)
    (hdelta : bar2.delta = sumVals bar2.buyVolumes - sumVals bar2.sellVolumes)
    (hvol : sumVals bar2.buyVolumes + sumVals bar2.sellVolumes ≤ bar2.volume)
    (htot : ∀ x, mval bar2.buyVolumes x + mval bar2.sellVolumes x
        = (mval buyO x + mval sellO x) + if x = lp then Δ else 0)
    (hsub : ∀ x ∈ mapKeys bar2.buyVolumes ++ mapKeys bar2.sellVolumes,
        x = lp ∨ x ∈ mapKeys buyO ++ mapKeys sellO)
    (hold : ∀ x ∈ mapKeys buyO ++ mapKeys sellO,
        mval buyO x + mval sellO x
          ≤ mval buyO bar2.poc + mval sellO bar2.poc) :
    barInv (pocCheck bar2 lp dir) := by
  obtain ⟨newPoc, heq, hout⟩ := pocCheck_eq bar2 lp dir
  rw [heq]
  refine ⟨by simpa using hdelta, by simpa using hvol, ?_⟩
  intro p hp
  simp only [getBarVolume, getBarBuyVolume, getBarSellVolume] at hp ⊢
  have hout' : (lp = bar2.poc ∧ newPoc = bar2.poc) ∨
      (¬ lp = bar2.poc ∧
        (mval bar2.buyVolumes bar2.poc + mval bar2.sellVolumes bar2.poc
          < mval bar2.buyVolumes lp + mval bar2.sellVolumes lp) ∧
        newPoc = lp) ∨
      (¬ lp = bar2.poc ∧
        ¬ (mval bar2.buyVolumes bar2.poc + mval bar2.sellVolumes bar2.poc
          < mval bar2.buyVolumes lp + mval bar2.sellVolumes lp) ∧
        newPoc = bar2.poc) := by
    rcases hout with ⟨h1, hsub2⟩ | ⟨h1, h2, h3⟩
    · by_cases hql : lp = bar2.poc
      · exact Or.inl ⟨hql, h1⟩
      · rcases hsub2 with h | h | h
        · exact absurd h hql
        · exact absurd h hdir
        · refine Or.inr (Or.inr ⟨hql, ?_, h1⟩)
          simpa [getBarVolume, getBarBuyVolume, getBarSellVolume] using h
    · refine Or.inr (Or.inl ⟨h2, ?_, h1⟩)
      simpa [getBarVolume, getBarBuyVolume, getBarSellVolume] using h3
  exact pocMax_step (fun x => mval buyO x + mval sellO x)
    (fun x => mval bar2.buyVolumes x + mval bar2.sellVolumes x)
    (mapKeys bar2.buyVolumes ++ mapKeys bar2.sellVolumes)
    (mapKeys buyO ++ mapKeys sellO) bar2.poc newPoc lp Δ hΔ htot hsub hold
    hout' p hp

theorem barInv_updateBar (bar : BarData) (tick : TickData) (tape : BarTape)
    (hb : barInv bar) (hv : 0 ≤ tape.volumeDelta) :
    barInv (updateBar bar tick tape) := by
  obtain ⟨hd, hvol, hpoc⟩ := hb
  have hpoc' : ∀ p ∈ mapKeys bar.buyVolumes ++ mapKeys bar.sellVolumes,
      mval bar.buyVolumes p + mval bar.sellVolumes p
        ≤ mval bar.buyVolumes bar.poc + mval bar.sellVolumes bar.poc := by
    intro p hp
    simpa [getBarVolume, getBarBuyVolume, getBarSellVolume] using hpoc p hp
  cases htd : tape.direction with
  | none =>
    simp only [updateBar, htd, pocCheck_none]
    refine ⟨by simpa using hd, by simp only; linarith, ?_⟩
    intro p hp
    simp only [getBarVolume, getBarBuyVolume, getBarSellVolume] at hp ⊢
    exact hpoc' p hp
  | up =>
    simp only [updateBar, htd]
    apply barInv_pocCheck _ _ tape.volumeDelta _ bar.buyVolumes bar.sellVolumes
      (fun h => TapeDirection.noConfusion h) hv
    · simp only [sumVals_bumpVol]
      rw [hd]; ring
    · simp only [sumVals_bumpVol]
      linarith
    · intro x
      simp only [mval_bumpVol]
      ring
    · intro x hx
      simp only [List.mem_append] at hx ⊢
      rcases hx with hx | hx
      · rcases mem_mapKeys_bumpVol _ _ _ x hx with h | h
        · exact Or.inl h
        · exact Or.inr (Or.inl h)
      · exact Or.inr (Or.inr hx)
    · exact hpoc'
  | down =>
    simp only [updateBar, htd]
    apply barInv_pocCheck _ _ tape.volumeDelta _ bar.buyVolumes bar.sellVolumes
      (fun h => TapeDirection.noConfusion h) hv
    · simp only [sumVals_bumpVol]
      rw [hd]; ring
    · simp only [sumVals_bumpVol]
      linarith
    · intro x
      simp only [mval_bumpVol]
      ring
    · intro x hx
      simp only [List.mem_append] at hx ⊢
      rcases hx with hx | hx
      · exact Or.inr (Or.inl hx)
      · rcases mem_mapKeys_bumpVol _ _ _ x hx with h | h
        · exact Or.inl h
        · exact Or.inr (Or.inr h)
    · exact hpoc'

/-- The invariant on the optional in-progress bar. -/
def optInv : Option BarData → Prop
  | Option.none => True
  | some b => barInv b

theorem barEvent_onBar_map {l : List BarReceiver} {b : BarData} {e : BarEvent}
    (he : e ∈ l.map fun r => BarEvent.onBar r.rid b) : e.bar = b := by
  rcases List.mem_map.mp he with ⟨r, _, rfl⟩
  rfl

theorem barEvent_updEvs {c : Prop} [Decidable c] {l : List BarReceiver}
    {b : BarData} {e : BarEvent}
    (he : e ∈ (if c then
      (l.filter fun (r : BarReceiver) => r.hasUpdate).map
        fun r => BarEvent.onUpdateBar r.rid b
      else [])) : e.bar = b := by
  split at he
  · rcases List.mem_map.mp he with ⟨r, _, rfl⟩
    rfl
  · simp at he

/-- One `onTick` step preserves the invariant of the in-progress bar and
every bar it hands to a receiver satisfies it. -/
theorem BarGen.onTick_inv (g : BarGen) (tick : TickData) (tape : BarTape)
    (hg : optInv g.bar) (hv : 0 ≤ tape.volumeDelta) :
    optInv (g.onTick tick tape).1.bar ∧
      ∀ e ∈ (g.onTick tick tape).2, barInv e.bar := by
  unfold BarGen.onTick
  by_cases hs : tick.symbol ≠ g.symbol
  · rw [if_pos hs]
    exact ⟨hg, by simp⟩
  · rw [if_neg hs]
    cases hgb : g.bar with
    | none =>
      simp only
      by_cases hz : tape.volumeDelta = 0
      · rw [if_pos hz]
        refine ⟨by simpa [hgb] using hg, by simp⟩
      · rw [if_neg hz]
        simp only [hgb]
        constructor
        · exact barInv_updateBar _ _ _ (barInv_createBar _ _ _ _) hv
        · intro e he
          simp only [List.nil_append] at he
          rw [barEvent_updEvs he]
          exact barInv_updateBar _ _ _ (barInv_createBar _ _ _ _) hv
    | some bar =>
      have hbar : barInv bar := by simpa [hgb, optInv] using hg
      simp only
      cases hfin : barFinished g bar tick.date (bucketTime g tick) with
      | true =>
        simp only [hfin, if_true]
        by_cases hz : tape.volumeDelta = 0
        · rw [if_pos hz]
          refine ⟨trivial, ?_⟩
          intro e he
          rw [barEvent_onBar_map he]
          exact hbar
        · rw [if_neg hz]
          simp only
          constructor
          · exact barInv_updateBar _ _ _ (barInv_createBar _ _ _ _) hv
          · intro e he
            rcases List.mem_append.mp he with he | he
            · rw [barEvent_onBar_map he]
              exact hbar
            · rw [barEvent_updEvs he]
              exact barInv_updateBar _ _ _ (barInv_createBar _ _ _ _) hv
      | false =>
        simp only [hfin, if_false, Bool.false_eq_true]
        by_cases hz : tape.volumeDelta = 0
        · rw [if_pos hz]
          refine ⟨by simpa [hgb] using hg, by simp⟩
        · rw [if_neg hz]
          simp only [hgb]
          constructor
          · exact barInv_updateBar _ _ _ hbar hv
          · intro e he
            simp only [List.nil_append] at he
            rw [barEvent_updEvs he]
            exact barInv_updateBar _ _ _ hbar hv

theorem BarGen.run_inv (g : BarGen) (inputs : List (TickData × BarTape))
    (hg : optInv g.bar) (hv : ∀ x ∈ inputs, 0 ≤ x.2.volumeDelta) :
    optInv (g.run inputs).1.bar ∧ ∀ e ∈ (g.run inputs).2, barInv e.bar := by
  induction inputs generalizing g with
  | nil => exact ⟨hg, by simp [BarGen.run]⟩
  | cons x rest ih =>
    have h1 := BarGen.onTick_inv g x.1 x.2 hg (hv x (by simp))
    have h2 := ih (g.onTick x.1 x.2).1 h1.1 fun y hy => hv y (by simp [hy])
    refine ⟨?_, ?_⟩
    · simpa [BarGen.run] using h2.1
    · intro e he
      simp only [BarGen.run, List.mem_append] at he
      rcases he with he | he
      · exact h1.2 e he
      · exact h2.2 e he

/-- C7 (amended) — Bar invariant of the Bar Aggregator: over any run of
`BarGenerator.onTick` on tapes with nonnegative volume deltas, every bar
handed to a receiver (`onBar` or `onUpdateBar`) and the in-progress bar
satisfy: `delta = Σ buyVolumes − Σ sellVolumes`, `Σ buyVolumes +
Σ sellVolumes ≤ volume` (equality fails for direction-`none` ticks — see the
counterexample), and `poc` has maximal buy+sell volume among all prices in
the maps. -/
theorem C7_bar_delta_poc_invariant (g : BarGen)
    (inputs : List (TickData × BarTape)) (hg : optInv g.bar)
    (hv : ∀ x ∈ inputs, 0 ≤ x.2.volumeDelta) :
    (∀ e ∈ (g.run inputs).2, barInv e.bar) ∧
      optInv (g.run inputs).1.bar :=
  ⟨(BarGen.run_inv g inputs hg hv).2, (BarGen.run_inv g inputs hg hv).1⟩

/-- A fresh one-minute generator for `X.DCE` with one receiver that also
wants intra-bar updates. -/
def c7Gen : BarGen :=
  { symbol := "X.DCE", maxVolume := 0, receivers := [⟨1, true⟩],
    shouldUpdate := 1, bar := Option.none }

/-- A tick of `X.DCE` at 09:00:01 with a last price of 100. -/
def c7Tick : TickData :=
  { tickEmptyBook with time := 90001, lastPrice := 100 }

theorem C7_bar_delta_poc_invariant_witness :
    (∀ e ∈ (c7Gen.run [(c7Tick, ⟨5, 500, .up⟩)]).2, barInv e.bar) ∧
      optInv (c7Gen.run [(c7Tick, ⟨5, 500, .up⟩)]).1.bar :=
  C7_bar_delta_poc_invariant c7Gen [(c7Tick, ⟨5, 500, .up⟩)]
    (by simp [c7Gen, optInv])
    (by intro x hx; simp only [List.mem_singleton] at hx; rw [hx]; norm_num)

/-- A second tick in the next minute bucket, closing the first bar. -/
def c7Tick2 : TickData :=
  { tickEmptyBook with time := 90101, lastPrice := 100 }

/-- The inputs of the counterexample: a tick whose tape has `volumeDelta = 5`
but direction `none`, then a tick in the next bucket that emits the bar. -/
def c7CexInputs : List (TickData × BarTape) :=
  [(c7Tick, ⟨5, 0, .none⟩), (c7Tick2, ⟨1, 0, .none⟩)]

/-- C7 counterexample — the claim's `volume = Σ buyVolumes + Σ sellVolumes`
is false: a tick with `volumeDelta = 5` and tape direction `none` adds 5 to
the bar's volume but nothing to either per-price map, so the emitted bar has
`volume = 5` while both maps are empty. -/
theorem C7_volume_equality_counterexample :
    ¬ ∀ e ∈ (c7Gen.run c7CexInputs).2,
        e.bar.volume = sumVals e.bar.buyVolumes + sumVals e.bar.sellVolumes := by
  intro h
  have hrun : (c7Gen.run c7CexInputs).2.map
      (fun e => (e.bar.volume,
        sumVals e.bar.buyVolumes + sumVals e.bar.sellVolumes)) =
      [(5, 0), (5, 0), (1, 0)] := by
    norm_num [c7Gen, c7CexInputs, c7Tick, c7Tick2, tickEmptyBook, BarGen.run,
      BarGen.onTick, bucketTime, barFinished, jsFloor, updateBar, pocCheck,
      createBar, bumpVol, sumVals, mval, lookupVol, getBarVolume,
      getBarBuyVolume, getBarSellVolume, jsMax, jsMin, BarEvent.bar]
  have hmem : ((5 : ℚ), (0 : ℚ)) ∈ (c7Gen.run c7CexInputs).2.map
      (fun e => (e.bar.volume,
        sumVals e.bar.buyVolumes + sumVals e.bar.sellVolumes)) := by
    rw [hrun]; simp
  rcases List.mem_map.mp hmem with ⟨e, hel, heq⟩
  have := h e hel
  rw [this] at heq
  have h5 : (5 : ℚ) = 0 := by
    have := congrArg Prod.fst heq
    simp at this
    have := congrArg Prod.snd heq
    simp at this
    linarith [congrArg Prod.fst heq, congrArg Prod.snd heq]
  norm_num at h5

/-! ## C1 — position accounting (`trader.ts`)

A single symbol's `PositionInfo` and the five accounting operations.  The
positions map is per-symbol and the operations of one symbol never read
another's row, so one row models the map faithfully.  Volumes are trade
volumes (integers in CTP), embedded as `ℤ`. -/

inductive SideType
  | long | short
deriving DecidableEq, Repr

inductive OffsetType
  | open_ | close | closeToday
deriving DecidableEq, Repr

structure PositionCell where
  position : ℤ
  frozen : ℤ
deriving DecidableEq, Repr

structure PositionSide where
  long : PositionCell
  short : PositionCell
deriving DecidableEq, Repr

structure Pending where
  long : ℤ
  short : ℤ
deriving DecidableEq, Repr

/-- `typedef.ts` `PositionData` (writeable `PositionInfo`). -/
structure PositionData where
  symbol : String
  today : PositionSide
  history : PositionSide
  pending : Pending
deriving DecidableEq, Repr

/-- The zeroed row `_ensurePositionInfo` creates. -/
def emptyPosition (symbol : String) : PositionData :=
  { symbol := symbol
    today := ⟨⟨0, 0⟩, ⟨0, 0⟩⟩
    history := ⟨⟨0, 0⟩, ⟨0, 0⟩⟩
    pending := ⟨0, 0⟩ }

/-- The close-offset consumption pattern of `_calcPosition` on one
(history, today) pair of fields: consume history first (the source writes
`x -= x` for the flooring, i.e. the field becomes 0), overflow the rest into
today, floored at 0. -/
def closeConsume (hist today volume : ℤ) : ℤ × ℤ :=
  if volume ≤ hist then (hist - volume, today)
  else if 0 < volume - hist then
    if volume - hist ≤ today then (0, today - (volume - hist)) else (0, 0)
  else (0, today)

/-- `trader.ts` `_calcPosition`. -/
def _calcPosition (p : PositionData) (side : SideType) (offset : OffsetType)
    (volume : ℤ) : PositionData :=
  match offset with
  | .open_ =>
    match side with
    | .long =>
        { p with
          today.long.position := p.today.long.position + volume
          pending.long :=
            if volume ≤ p.pending.long then p.pending.long - volume else 0 }
    | .short =>
        { p with
          today.short.position := p.today.short.position + volume
          pending.short :=
            if volume ≤ p.pending.short then p.pending.short - volume else 0 }
  | .close =>
    match side with
    | .long =>
        let pos := closeConsume p.history.short.position
          p.today.short.position volume
        let frz := closeConsume p.history.short.frozen
          p.today.short.frozen volume
        { p with
          history.short.position := pos.1
          today.short.position := pos.2
          history.short.frozen := frz.1
          today.short.frozen := frz.2 }
    | .short =>
        let pos := closeConsume p.history.long.position
          p.today.long.position volume
        let frz := closeConsume p.history.long.frozen
          p.today.long.frozen volume
        { p with
          history.long.position := pos.1
          today.long.position := pos.2
          history.long.frozen := frz.1
          today.long.frozen := frz.2 }
  | .closeToday =>
    match side with
    | .long =>
        { p with
          today.short.position :=
            if volume ≤ p.today.short.position
            then p.today.short.position - volume else 0
          today.short.frozen :=
            if volume ≤ p.today.short.frozen
            then p.today.short.frozen - volume else 0 }
    | .short =>
        { p with
          today.long.position :=
            if volume ≤ p.today.long.position
            then p.today.long.position - volume else 0
          today.long.frozen :=
            if volume ≤ p.today.long.frozen
            then p.today.long.frozen - volume else 0 }

/-- `trader.ts` `_recordPending`: on submit of an open order,
`pending[side] += volume`. -/
def _recordPending (p : PositionData) (side : SideType) (offset : OffsetType)
    (volume : ℤ) : PositionData :=
  if offset ≠ .open_ then p
  else
    match side with
    | .long => { p with pending.long := p.pending.long + volume }
    | .short => { p with pending.short := p.pending.short + volume }

/-- `trader.ts` `_recoverPending`: on cancel of an open order,
`pending[side] -= volume` — not floored at 0. -/
def _recoverPending (p : PositionData) (side : SideType) (offset : OffsetType)
    (volume : ℤ) : PositionData :=
  if offset ≠ .open_ then p
  else
    match side with
    | .long => { p with pending.long := p.pending.long - volume }
    | .short => { p with pending.short := p.pending.short - volume }

/-- `trader.ts` `_freezePosition`: close freezes `history.[opposite]`,
close-today freezes `today.[opposite]`; open is a no-op. -/
def _freezePosition (p : PositionData) (side : SideType) (offset : OffsetType)
    (volume : ℤ) : PositionData :=
  match offset with
  | .close =>
    match side with
    | .long => { p with
        history.short.frozen := p.history.short.frozen + volume }
    | .short => { p with
        history.long.frozen := p.history.long.frozen + volume }
  | .closeToday =>
    match side with
    | .long => { p with
        today.short.frozen := p.today.short.frozen + volume }
    | .short => { p with
        today.long.frozen := p.today.long.frozen + volume }
  | .open_ => p

/-- `trader.ts` `_unfreezePosition`: floored decrements. -/
def _unfreezePosition (p : PositionData) (side : SideType)
    (offset : OffsetType) (volume : ℤ) : PositionData :=
  match offset with
  | .close =>
    match side with
    | .long => { p with
        history.short.frozen :=
          if volume ≤ p.history.short.frozen
          then p.history.short.frozen - volume else 0 }
    | .short => { p with
        history.long.frozen :=
          if volume ≤ p.history.long.frozen
          then p.history.long.frozen - volume else 0 }
  | .closeToday =>
    match side with
    | .long => { p with
        today.short.frozen :=
          if volume ≤ p.today.short.frozen
          then p.today.short.frozen - volume else 0 }
    | .short => { p with
        today.long.frozen :=
          if volume ≤ p.today.long.frozen
          then p.today.long.frozen - volume else 0 }
  | .open_ => p

/-- One position-accounting operation, as dispatched by the `RtnOrder` /
`RtnTrade` handlers. -/
inductive PosOp
  | calcPos (side : SideType) (offset : OffsetType) (volume : ℤ)
  | recordPending (side : SideType) (offset : OffsetType) (volume : ℤ)
  | recoverPending (side : SideType) (offset : OffsetType) (volume : ℤ)
  | freezePosition (side : SideType) (offset : OffsetType) (volume : ℤ)
  | unfreezePosition (side : SideType) (offset : OffsetType) (volume : ℤ)
deriving DecidableEq, Repr

def PosOp.volume : PosOp → ℤ
  | .calcPos _ _ v | .recordPending _ _ v | .recoverPending _ _ v
  | .freezePosition _ _ v | .unfreezePosition _ _ v => v

def PosOp.isRecoverPending : PosOp → Bool
  | .recoverPending _ _ _ => true
  | _ => false

def applyPosOp (p : PositionData) : PosOp → PositionData
  | .calcPos side offset v => _calcPosition p side offset v
  | .recordPending side offset v => _recordPending p side offset v
  | .recoverPending side offset v => _recoverPending p side offset v
  | .freezePosition side offset v => _freezePosition p side offset v
  | .unfreezePosition side offset v => _unfreezePosition p side offset v

def applyPosOps (p : PositionData) (ops : List PosOp) : PositionData :=
  ops.foldl applyPosOp p

/-- Non-negativity of the eight today/history cells. -/
def todayHistoryNonneg (p : PositionData) : Prop :=
  0 ≤ p.today.long.position ∧ 0 ≤ p.today.long.frozen ∧
  0 ≤ p.today.short.position ∧ 0 ≤ p.today.short.frozen ∧
  0 ≤ p.history.long.position ∧ 0 ≤ p.history.long.frozen ∧
  0 ≤ p.history.short.position ∧ 0 ≤ p.history.short.frozen

/-- Non-negativity of both pending counters. -/
def pendingNonneg (p : PositionData) : Prop :=
  0 ≤ p.pending.long ∧ 0 ≤ p.pending.short

theorem closeConsume_nonneg (hist today volume : ℤ) (h1 : 0 ≤ hist)
    (h2 : 0 ≤ today) (h3 : 0 ≤ volume) :
    0 ≤ (closeConsume hist today volume).1 ∧
      0 ≤ (closeConsume hist today volume).2 := by
  unfold closeConsume
  by_cases hc1 : volume ≤ hist
  · rw [if_pos hc1]
    exact ⟨by omega, h2⟩
  · rw [if_neg hc1]
    by_cases hc2 : 0 < volume - hist
    · rw [if_pos hc2]
      by_cases hc3 : volume - hist ≤ today
      · rw [if_pos hc3]
        exact ⟨le_refl 0, by omega⟩
      · rw [if_neg hc3]
        exact ⟨le_refl 0, le_refl 0⟩
    · rw [if_neg hc2]
      exact ⟨le_refl 0, h2⟩

theorem applyPosOp_todayHistoryNonneg (p : PositionData) (op : PosOp)
    (hp : todayHistoryNonneg p) (hv : 0 ≤ op.volume) :
    todayHistoryNonneg (applyPosOp p op) := by
  obtain ⟨sym, ⟨⟨tlp, tlf⟩, ⟨tsp, tsf⟩⟩, ⟨⟨hlp, hlf⟩, ⟨hsp, hsf⟩⟩, pl, ps⟩ := p
  obtain ⟨h1, h2, h3, h4, h5, h6, h7, h8⟩ := hp
  simp only [todayHistoryNonneg] at *
  cases op with
  | calcPos side offset v =>
    simp only [PosOp.volume] at hv
    cases offset <;> cases side <;>
      simp only [applyPosOp, _calcPosition]
    · refine ⟨by omega, h2, h3, h4, h5, h6, h7, h8⟩
    · refine ⟨h1, h2, by omega, h4, h5, h6, h7, h8⟩
    · have c1 := closeConsume_nonneg hsp tsp v h7 h3 hv
      have c2 := closeConsume_nonneg hsf tsf v h8 h4 hv
      exact ⟨h1, h2, c1.2, c2.2, h5, h6, c1.1, c2.1⟩
    · have c1 := closeConsume_nonneg hlp tlp v h5 h1 hv
      have c2 := closeConsume_nonneg hlf tlf v h6 h2 hv
      exact ⟨c1.2, c2.2, h3, h4, c1.1, c2.1, h7, h8⟩
    · refine ⟨h1, h2, ?_, ?_, h5, h6, h7, h8⟩ <;> split_ifs <;> omega
    · refine ⟨?_, ?_, h3, h4, h5, h6, h7, h8⟩ <;> split_ifs <;> omega
  | recordPending side offset v =>
    simp only [applyPosOp, _recordPending]
    split_ifs
    · exact ⟨h1, h2, h3, h4, h5, h6, h7, h8⟩
    · cases side <;> exact ⟨h1, h2, h3, h4, h5, h6, h7, h8⟩
  | recoverPending side offset v =>
    simp only [applyPosOp, _recoverPending]
    split_ifs
    · exact ⟨h1, h2, h3, h4, h5, h6, h7, h8⟩
    · cases side <;> exact ⟨h1, h2, h3, h4, h5, h6, h7, h8⟩
  | freezePosition side offset v =>
    simp only [PosOp.volume] at hv
    cases offset <;> cases side <;> simp only [applyPosOp, _freezePosition]
    · exact ⟨h1, h2, h3, h4, h5, h6, h7, h8⟩
    · exact ⟨h1, h2, h3, h4, h5, h6, h7, h8⟩
    · exact ⟨h1, h2, h3, h4, h5, h6, h7, by omega⟩
    · exact ⟨h1, h2, h3, h4, h5, by omega, h7, h8⟩
    · exact ⟨h1, h2, h3, by omega, h5, h6, h7, h8⟩
    · exact ⟨h1, by omega, h3, h4, h5, h6, h7, h8⟩
  | unfreezePosition side offset v =>
    simp only [PosOp.volume] at hv
    cases offset <;> cases side <;> simp only [applyPosOp, _unfreezePosition]
    · exact ⟨h1, h2, h3, h4, h5, h6, h7, h8⟩
    · exact ⟨h1, h2, h3, h4, h5, h6, h7, h8⟩
    · refine ⟨h1, h2, h3, h4, h5, h6, h7, ?_⟩
      split_ifs <;> omega
    · refine ⟨h1, h2, h3, h4, h5, ?_, h7, h8⟩
      split_ifs <;> omega
    · refine ⟨h1, h2, h3, ?_, h5, h6, h7, h8⟩
      split_ifs <;> omega
    · refine ⟨h1, ?_, h3, h4, h5, h6, h7, h8⟩
      split_ifs <;> omega

theorem applyPosOp_pendingNonneg (p : PositionData) (op : PosOp)
    (hp : pendingNonneg p) (hv : 0 ≤ op.volume)
    (hrec : op.isRecoverPending = false) :
    pendingNonneg (applyPosOp p op) := by
  obtain ⟨sym, ⟨⟨tlp, tlf⟩, ⟨tsp, tsf⟩⟩, ⟨⟨hlp, hlf⟩, ⟨hsp, hsf⟩⟩, pl, ps⟩ := p
  obtain ⟨h1, h2⟩ := hp
  simp only [pendingNonneg] at *
  cases op with
  | calcPos side offset v =>
    simp only [PosOp.volume] at hv
    cases offset <;> cases side <;>
      simp only [applyPosOp, _calcPosition] <;>
      constructor <;> first
        | exact h1
        | exact h2
        | (split_ifs <;> omega)
  | recordPending side offset v =>
    simp only [PosOp.volume] at hv
    simp only [applyPosOp, _recordPending]
    split_ifs
    · exact ⟨h1, h2⟩
    · cases side <;> refine ⟨?_, ?_⟩ <;> simp only <;> omega
  | recoverPending side offset v => simp [PosOp.isRecoverPending] at hrec
  | freezePosition side offset v =>
    cases offset <;> cases side <;> simp only [applyPosOp, _freezePosition] <;>
      exact ⟨h1, h2⟩
  | unfreezePosition side offset v =>
    cases offset <;> cases side <;>
      simp only [applyPosOp, _unfreezePosition] <;> exact ⟨h1, h2⟩

theorem applyPosOps_todayHistoryNonneg (p : PositionData)
    (ops : List PosOp) (hth : todayHistoryNonneg p)
    (hv : ∀ op ∈ ops, 0 ≤ op.volume) :
    todayHistoryNonneg (applyPosOps p ops) := by
  induction ops generalizing p with
  | nil => exact hth
  | cons op rest ih =>
    exact ih (applyPosOp p op)
      (applyPosOp_todayHistoryNonneg p op hth (hv op (by simp)))
      fun o ho => hv o (by simp [ho])

theorem applyPosOps_pendingNonneg (p : PositionData) (ops : List PosOp)
    (hpd : pendingNonneg p) (hv : ∀ op ∈ ops, 0 ≤ op.volume)
    (hrec : ∀ op ∈ ops, op.isRecoverPending = false) :
    pendingNonneg (applyPosOps p ops) := by
  induction ops generalizing p with
  | nil => exact hpd
  | cons op rest ih =>
    exact ih (applyPosOp p op)
      (applyPosOp_pendingNonneg p op hpd (hv op (by simp))
        (hrec op (by simp)))
      (fun o ho => hv o (by simp [ho]))
      fun o ho => hrec o (by simp [ho])

/-- C1 (amended) — Position non-negativity: under any sequence of the five
position-accounting operations with nonnegative volumes, every
`{today,history}.{long,short}.{position,frozen}` cell stays ≥ 0; and the
`pending.{long,short}` counters stay ≥ 0 provided the sequence contains no
`_recoverPending` (whose unfloored `pending -= volume` is what can drive
pending negative — see the counterexample). -/
theorem C1_position_nonneg (p : PositionData) (ops : List PosOp)
    (hth : todayHistoryNonneg p) (hpd : pendingNonneg p)
    (hv : ∀ op ∈ ops, 0 ≤ op.volume) :
    todayHistoryNonneg (applyPosOps p ops) ∧
      ((∀ op ∈ ops, op.isRecoverPending = false) →
        pendingNonneg (applyPosOps p ops)) :=
  ⟨applyPosOps_todayHistoryNonneg p ops hth hv,
    fun hrec => applyPosOps_pendingNonneg p ops hpd hv hrec⟩

/-- The operation sequence of an open order for 3 lots that fills 2 and is
then cancelled: the cancel recovers the full original volume. -/
def c1Ops : List PosOp :=
  [.recordPending .long .open_ 3, .calcPos .long .open_ 2,
    .recoverPending .long .open_ 3]

theorem C1_position_nonneg_witness :
    todayHistoryNonneg (applyPosOps (emptyPosition "X.DCE") c1Ops) ∧
      ((∀ op ∈ c1Ops, op.isRecoverPending = false) →
        pendingNonneg (applyPosOps (emptyPosition "X.DCE") c1Ops)) :=
  C1_position_nonneg (emptyPosition "X.DCE") c1Ops
    (by simp [todayHistoryNonneg, emptyPosition])
    (by simp [pendingNonneg, emptyPosition]) (by decide)

/-- C1 counterexample — the claim's blanket non-negativity is false for
`pending`: submit-open-long(3), fill(2), cancel(3) leaves
`pending.long = −2`. -/
theorem C1_pending_goes_negative :
    (applyPosOps (emptyPosition "X.DCE") c1Ops).pending.long < 0 := by decide

/-! ## C2 — margin-rate query queue (`trader.ts`)

The queue, the trading-day cache, the gateway requests issued and the
receiver callbacks performed.  Receivers are identified by numbers; a
delivered callback records `(receiver, rate)`. -/

/-- `utils.ts` `parseSymbol`: `symbol.split(".")` destructured into
`[instrumentId, exchangeId]`; a missing second component is JS `undefined`
(`Option.none`).  Split is implemented over the character list so concrete
instances evaluate. -/
def parseSymbol (symbol : String) : String × Option String :=
  match (symbol.data.splitOn '.').map (fun cs => String.mk cs) with
  | [] => ("", Option.none)
  | [a] => (a, Option.none)
  | a :: b :: _ => (a, some b)

structure RatioAmount where
  ratio : ℚ
  amount : ℚ
deriving DecidableEq, Repr

structure MarginRate where
  symbol : String
  long : RatioAmount
  short : RatioAmount
deriving DecidableEq, Repr

/-- The gateway's `InstrumentMarginRateField` (the fields the engine
reads). -/
structure InstrumentMarginRateField where
  instrumentId : String
  longMarginRatioByMoney : ℚ
  longMarginRatioByVolume : ℚ
  shortMarginRatioByMoney : ℚ
  shortMarginRatioByVolume : ℚ
deriving DecidableEq, Repr

/-- `trader.ts` `_toMarginRate`. -/
def _toMarginRate (symbol : String) (marginRate : InstrumentMarginRateField) :
    MarginRate :=
  { symbol := symbol
    long := ⟨marginRate.longMarginRatioByMoney,
      marginRate.longMarginRatioByVolume⟩
    short := ⟨marginRate.shortMarginRatioByMoney,
      marginRate.shortMarginRatioByVolume⟩ }

structure MarginRateQuery where
  symbol : String
  rid : ℕ
deriving DecidableEq, Repr

/-- First-match association-list lookup (JS `Map.get`). -/
def getAssoc {α : Type} : List (String × α) → String → Option α
  | [], _ => Option.none
  | (k, v) :: rest, key => if key = k then some v else getAssoc rest key

/-- JS `Map.set`: replace the existing entry or append. -/
def setAssoc {α : Type} : List (String × α) → String → α → List (String × α)
  | [], key, v => [(key, v)]
  | (k, w) :: rest, key, v =>
      if key = k then (k, v) :: rest else (k, w) :: setAssoc rest key v

/-- The margin-rate slice of the `Trader` state. -/
structure RatesState where
  marginRatesQueue : List MarginRateQuery
  marginRates : List (String × InstrumentMarginRateField)
  requests : List String
  delivered : List (ℕ × Option MarginRate)
deriving DecidableEq, Repr

/-- `trader.ts` `queryMarginRate`: cache hit → synchronous callback; miss →
enqueue, and issue the gateway request only when the queue was empty (its
size after the push is 1). -/
def queryMarginRate (st : RatesState) (symbol : String) (rid : ℕ) :
    RatesState :=
  let instrumentId := (parseSymbol symbol).1
  match getAssoc st.marginRates instrumentId with
  | some marginRate =>
      { st with delivered :=
          st.delivered ++ [(rid, some (_toMarginRate symbol marginRate))] }
  | Option.none =>
      let queue := st.marginRatesQueue ++ [⟨symbol, rid⟩]
      if queue.length = 1 then
        { st with marginRatesQueue := queue
                  requests := st.requests ++ [instrumentId] }
      else { st with marginRatesQueue := queue }

/-- `trader.ts` `_processMarginRatesQueue`, fuel-indexed: one fuel unit per
iteration of the `while (!queue.isEmpty())` loop.  Returns `true` when the
loop exited (queue empty), `false` when the fuel ran out with the loop still
running.  Note the uncached-head branch issues a request and loops again
without removing the head — the source has no `return` there. -/
def processMarginRatesQueue : ℕ → RatesState → RatesState × Bool
  | 0, st => (st, false)
  | fuel + 1, st =>
    match st.marginRatesQueue with
    | [] => (st, true)
    | nextQuery :: rest =>
      let instrumentId := (parseSymbol nextQuery.symbol).1
      match getAssoc st.marginRates instrumentId with
      | some marginRate =>
          processMarginRatesQueue fuel
            { st with
              delivered := st.delivered ++
                [(nextQuery.rid, some (_toMarginRate nextQuery.symbol
                  marginRate))]
              marginRatesQueue := rest }
      | Option.none =>
          processMarginRatesQueue fuel
            { st with requests := st.requests ++ [instrumentId] }

/-- The `RspQryInstrumentMarginRate` handler on a successful response with a
payload: shift the head, cache the rate, deliver to the shifted query, then
drain. -/
def onRspQryInstrumentMarginRate (st : RatesState)
    (marginRate : InstrumentMarginRateField) (fuel : ℕ) :
    RatesState × Bool :=
  let query := st.marginRatesQueue.head?
  let st := { st with marginRatesQueue := st.marginRatesQueue.tail }
  let st := { st with
    marginRates := setAssoc st.marginRates marginRate.instrumentId marginRate }
  let st := match query with
    | some q => { st with delivered :=
        st.delivered ++ [(q.rid, some (_toMarginRate q.symbol marginRate))] }
    | Option.none => st
  processMarginRatesQueue fuel st

/-- An uncached head keeps the drain loop spinning: whatever the fuel, the
queue and the cache never change and the loop never exits; only the list of
issued gateway requests grows. -/
theorem processMarginRatesQueue_stuck (fuel : ℕ) (st : RatesState)
    (h : ∃ q rest, st.marginRatesQueue = q :: rest ∧
      getAssoc st.marginRates (parseSymbol q.symbol).1 = Option.none) :
    (processMarginRatesQueue fuel st).1.marginRatesQueue =
        st.marginRatesQueue ∧
      (processMarginRatesQueue fuel st).1.marginRates = st.marginRates ∧
      (processMarginRatesQueue fuel st).2 = false := by
  induction fuel generalizing st with
  | zero => exact ⟨rfl, rfl, rfl⟩
  | succ n ih =>
    obtain ⟨q, rest, hq, hc⟩ := h
    simp only [processMarginRatesQueue, hq, hc]
    exact ih _ ⟨q, rest, rfl, hc⟩

def c2St0 : RatesState := ⟨[], [], [], []⟩

/-- A margin-rate payload for instrument `X`. -/
def mrX : InstrumentMarginRateField := ⟨"X", 1, 2, 3, 4⟩

/-- The state after `queryMarginRate("X.SHFE", r1); queryMarginRate("X.SHFE",
r2)` with a cold cache. -/
def c2AfterTwo : RatesState :=
  queryMarginRate (queryMarginRate c2St0 "X.SHFE" 1) "X.SHFE" 2

/-- A rate queue holding one query whose symbol is not cached — exactly the
state the response handler's drain reaches once the head it shifted was
followed by a query for a different, uncached instrument. -/
def c2Stuck : RatesState := ⟨[⟨"Y.SHFE", 3⟩], [], [], []⟩

/-- C2 — rate-query coalescing works (two `queryMarginRate` calls for one
uncached symbol issue exactly one gateway request, and the one response
serves both receivers the same rate synchronously), but the drain loop
`_processMarginRatesQueue` does not terminate on every queue content: with
an uncached head it reissues the gateway request forever, never consuming
the queue — the loop body's uncached branch has no `return`. -/
theorem C2_rate_queue_coalesce_and_divergence :
    c2AfterTwo.requests = ["X"] ∧
    c2AfterTwo.delivered = [] ∧
    c2AfterTwo.marginRatesQueue = [⟨"X.SHFE", 1⟩, ⟨"X.SHFE", 2⟩] ∧
    (∀ fuel, onRspQryInstrumentMarginRate c2AfterTwo mrX (fuel + 2) =
       ({ marginRatesQueue := []
          marginRates := [("X", mrX)]
          requests := ["X"]
          delivered := [(1, some (_toMarginRate "X.SHFE" mrX)),
            (2, some (_toMarginRate "X.SHFE" mrX))] }, true)) ∧
    (∀ fuel, (processMarginRatesQueue fuel c2Stuck).2 = false ∧
      (processMarginRatesQueue fuel c2Stuck).1.marginRatesQueue =
        c2Stuck.marginRatesQueue) := by
  refine ⟨rfl, rfl, rfl, fun fuel => rfl, fun fuel => ?_⟩
  have h := processMarginRatesQueue_stuck fuel c2Stuck
    ⟨⟨"Y.SHFE", 3⟩, [], rfl, rfl⟩
  exact ⟨h.2.2, h.1⟩

/-! ## C3 — market login re-subscription (`market.ts`) -/

/-- JS `new Set([...])` construction from a list: order-preserving
deduplication keeping first occurrences. -/
def jsSetOfList (l : List String) : List String :=
  l.foldl (fun acc x => if x ∈ acc then acc else acc ++ [x]) []

/-- JS `Object.keys` applied to a `Map` instance.  A `Map`'s entries live in
internal slots, not in own enumerable properties, so `Object.keys` of any
`Map` is the empty array — `market.ts` line 120 calls
`Object.keys(this.subscribers)` where `subscribers : Map<string,
ITickReceiver[]>`. -/
def objectKeysOfMap {α : Type} (_ : List (String × α)) : List String := []

/-- The slice of `Market` state the `RspUserLogin` handler touches. -/
structure MarketState where
  tradingDay : ℤ
  recordings : List String
  subscribers : List (String × List ℕ)
  lastTicks : List (String × TickData)
  fired : Bool
deriving DecidableEq, Repr

structure LoginResult where
  state : MarketState
  /-- The instrument ids passed to `subscribeMarketData`, or `none` when no
  network request is made (`instrumentIds.size = 0`). -/
  subscribeBatch : Option (List String)
  /-- Whether `lifecycle.onOpen()` ran in this invocation. -/
  openFired : Bool
deriving DecidableEq, Repr

/-- `market.ts` `Market.open`'s `RspUserLogin` handler, on a successful
(non-error) login with trading day `newTradingDay`. -/
def marketRspUserLogin (st : MarketState) (newTradingDay : ℤ) : LoginResult :=
  let st := if st.tradingDay ≠ newTradingDay then
      { st with lastTicks := [], tradingDay := newTradingDay }
    else st
  let instrumentIds :=
    jsSetOfList (st.recordings ++ objectKeysOfMap st.subscribers)
  let batch := if 0 < instrumentIds.length then some instrumentIds
    else Option.none
  let fireNow := !st.fired
  { state := { st with fired := true }, subscribeBatch := batch,
    openFired := fireNow }

/-- A market with one live subscriber for `rb2501`, no recordings, a cached
last tick, that has not yet fired `onOpen`. -/
def c3St : MarketState :=
  { tradingDay := 0
    recordings := []
    subscribers := [("rb2501", [7])]
    lastTicks := [("rb2501", tickEmptyBook)]
    fired := false }

/-- C3 — on a successful market login the code's re-subscription batch drops
every subscribed instrument: `Object.keys` of the `subscribers` `Map` is
always empty, so with no recordings no subscribe request is issued at all,
although the union the claim demands is `{"rb2501"}`.  (The other two parts
of the claim behave as stated here: `lastTicks` is cleared exactly when the
trading day changed, and `onOpen` fires only on the first successful
login.) -/
theorem C3_relogin_resubscribe_drops_subscribers :
    (marketRspUserLogin c3St 20250102).subscribeBatch = Option.none ∧
    jsSetOfList (c3St.recordings ++ c3St.subscribers.map Prod.fst) =
      ["rb2501"] ∧
    (marketRspUserLogin c3St 20250102).state.lastTicks = [] ∧
    (marketRspUserLogin c3St 20250102).openFired = true ∧
    (marketRspUserLogin
      (marketRspUserLogin c3St 20250102).state 20250102).openFired = false ∧
    (marketRspUserLogin
      (marketRspUserLogin c3St 20250102).state 20250102).state.lastTicks =
      (marketRspUserLogin c3St 20250102).state.lastTicks :=
  ⟨rfl, rfl, rfl, rfl, rfl, rfl⟩

/-! ## C9 — order submission result protocol (`trader.ts`) -/

inductive OrderFlag
  | limit | market
deriving DecidableEq, Repr

/-- The fields of the gateway's `InstrumentField` that order submission
reads. -/
structure InstrumentField where
  instrumentId : String
  exchangeId : String
deriving DecidableEq, Repr

/-- `typedef.ts` `OrderStatistic`. -/
structure OrderStatistic where
  symbol : String
  places : ℕ
  entrusts : ℕ
  filleds : ℕ
  cancels : ℕ
  rejects : ℕ
deriving DecidableEq, Repr

/-- The zeroed statistic `_ensureOrderStatistic` creates. -/
def emptyStatistic (symbol : String) : OrderStatistic :=
  ⟨symbol, 0, 0, 0, 0, 0⟩

/-- `trader.ts` `_ensureOrderStatistic` as a read: the stored row or a
zeroed one. -/
def _ensureOrderStatistic (stats : List (String × OrderStatistic))
    (symbol : String) : OrderStatistic :=
  (getAssoc stats symbol).getD (emptyStatistic symbol)

/-- `statistic.places += 1` through `_ensureOrderStatistic` (which inserts
the row when absent). -/
def bumpPlaces (stats : List (String × OrderStatistic)) (symbol : String) :
    List (String × OrderStatistic) :=
  let s := _ensureOrderStatistic stats symbol
  setAssoc stats symbol { s with places := s.places + 1 }

/-- The trader state read and written by `_placeLimitOrder`. -/
structure PlaceState where
  instruments : List (String × InstrumentField)
  frontId : ℤ
  sessionId : ℤ
  orderRef : ℤ
  orderStatistics : List (String × OrderStatistic)
  placeOrders : List (ℤ × ℕ)
deriving DecidableEq, Repr

/-- A callback on the place-order result receiver (identified by `rid`). -/
inductive PlaceEvent
  | onPlaceOrderError (rid : ℕ) (reason : String)
  | onPlaceOrderSent (rid : ℕ) (receiptId : String)
  /-- `placeOrder` dispatched the call to `_placeMarketOrder` (the
  market-order conversion, outside this claim). -/
  | marketOrderPath (rid : ℕ)
deriving DecidableEq, Repr

/-- `${frontId}:${sessionId}:${orderRef}`. -/
def mkReceiptId (frontId sessionId orderRef : ℤ) : String :=
  toString frontId ++ ":" ++ toString sessionId ++ ":" ++ toString orderRef

/-- `trader.ts` `_placeLimitOrder`.  The gateway interaction is a parameter:
`attempts` is how many times `_withRetry` invoked the request function (each
attempt mints `orderRef = ++this.orderRef`), `requestId` the value the retry
helper resolved to (`≤ 0` = failure; `0` also stands for the JS
`undefined` of a missing api, both falsy). -/
def _placeLimitOrder (st : PlaceState) (symbol : String) (volume : ℤ)
    (price : ℚ) (rid : ℕ) (attempts : ℕ) (requestId : ℤ) :
    PlaceState × List PlaceEvent :=
  let instrumentId := (parseSymbol symbol).1
  let exchangeId := (parseSymbol symbol).2
  match getAssoc st.instruments instrumentId with
  | Option.none => (st, [.onPlaceOrderError rid "Instrument Not Found"])
  | some instrument =>
    if exchangeId ≠ some instrument.exchangeId then
      (st, [.onPlaceOrderError rid "Exchange Id Error"])
    else
      let orderRef := st.orderRef + attempts
      let st := { st with orderRef := orderRef }
      if requestId = 0 ∨ requestId < 0 then
        (st, [.onPlaceOrderError rid "Request Error"])
      else
        let st := { st with
          orderStatistics := bumpPlaces st.orderStatistics symbol
          placeOrders := st.placeOrders ++ [(requestId, rid)] }
        (st, [.onPlaceOrderSent rid
          (mkReceiptId st.frontId st.sessionId orderRef)])

/-- `trader.ts` `placeOrder`: the volume guard, then dispatch by flag. -/
def placeOrder (st : PlaceState) (symbol : String) (volume : ℤ) (price : ℚ)
    (flag : OrderFlag) (rid : ℕ) (attempts : ℕ) (requestId : ℤ) :
    PlaceState × List PlaceEvent :=
  if volume ≤ 0 then (st, [.onPlaceOrderError rid "Invalid Volume"])
  else
    match flag with
    | .limit => _placeLimitOrder st symbol volume price rid attempts requestId
    | .market => (st, [.marketOrderPath rid])

theorem getAssoc_setAssoc {α : Type} (m : List (String × α)) (k : String)
    (v : α) : getAssoc (setAssoc m k v) k = some v := by
  induction m with
  | nil => simp [setAssoc, getAssoc]
  | cons hd tl ih =>
    obtain ⟨k2, w⟩ := hd
    by_cases h : k = k2
    · simp [setAssoc, getAssoc, h]
    · simp [setAssoc, getAssoc, h, ih]

/-- C9 — `placeOrder` result protocol on the limit path: non-positive volume
reports `"Invalid Volume"` and nothing else; an unknown instrument
`"Instrument Not Found"`; an exchange-id mismatch `"Exchange Id Error"`; a
request id ≤ 0 `"Request Error"` (with no statistic bump and no
correlation); and on success `statistic.places` grows by exactly one, the
`(requestId, receiver)` correlation is recorded, and the receiver gets
`onPlaceOrderSent` with `receiptId = frontId:sessionId:orderRef` for the
minted orderRef. -/
theorem C9_placeOrder_result_protocol (st : PlaceState) (symbol : String)
    (volume : ℤ) (price : ℚ) (rid attempts : ℕ) (requestId : ℤ) :
    (volume ≤ 0 →
      placeOrder st symbol volume price .limit rid attempts requestId =
        (st, [.onPlaceOrderError rid "Invalid Volume"])) ∧
    (0 < volume →
      getAssoc st.instruments (parseSymbol symbol).1 = Option.none →
      placeOrder st symbol volume price .limit rid attempts requestId =
        (st, [.onPlaceOrderError rid "Instrument Not Found"])) ∧
    (∀ instrument, 0 < volume →
      getAssoc st.instruments (parseSymbol symbol).1 = some instrument →
      (parseSymbol symbol).2 ≠ some instrument.exchangeId →
      placeOrder st symbol volume price .limit rid attempts requestId =
        (st, [.onPlaceOrderError rid "Exchange Id Error"])) ∧
    (∀ instrument, 0 < volume →
      getAssoc st.instruments (parseSymbol symbol).1 = some instrument →
      (parseSymbol symbol).2 = some instrument.exchangeId →
      requestId ≤ 0 →
      placeOrder st symbol volume price .limit rid attempts requestId =
        ({ st with orderRef := st.orderRef + attempts },
          [.onPlaceOrderError rid "Request Error"])) ∧
    (∀ instrument, 0 < volume →
      getAssoc st.instruments (parseSymbol symbol).1 = some instrument →
      (parseSymbol symbol).2 = some instrument.exchangeId →
      0 < requestId →
      placeOrder st symbol volume price .limit rid attempts requestId =
        ({ st with
            orderRef := st.orderRef + attempts
            orderStatistics := bumpPlaces st.orderStatistics symbol
            placeOrders := st.placeOrders ++ [(requestId, rid)] },
          [.onPlaceOrderSent rid
            (mkReceiptId st.frontId st.sessionId (st.orderRef + attempts))])) ∧
    (_ensureOrderStatistic (bumpPlaces st.orderStatistics symbol)
        symbol).places =
      (_ensureOrderStatistic st.orderStatistics symbol).places + 1 := by
  refine ⟨?_, ?_, ?_, ?_, ?_, ?_⟩
  · intro h
    simp [placeOrder, h]
  · intro h hi
    simp [placeOrder, not_le.mpr h, _placeLimitOrder, hi]
  · intro instrument h hi hex
    simp [placeOrder, not_le.mpr h, _placeLimitOrder, hi, hex]
  · intro instrument h hi hex hreq
    have hreq' : requestId = 0 ∨ requestId < 0 := by omega
    simp [placeOrder, not_le.mpr h, _placeLimitOrder, hi, hex, hreq']
  · intro instrument h hi hex hreq
    have hreq' : ¬ (requestId = 0 ∨ requestId < 0) := by omega
    simp [placeOrder, not_le.mpr h, _placeLimitOrder, hi, hex, hreq']
  · simp [bumpPlaces, _ensureOrderStatistic, getAssoc_setAssoc]

/-! ## C8 — order-statistic inequalities (`trader.ts`)

The statistic-relevant slice of the `RtnOrder` handler and of the
place-order success path, run over traces of successful placements and
`RtnOrder` lifecycle events.  Orders are identified by their order id
(`exchangeId:traderId:orderLocalId`), abstracted to `ℕ`; the resolution
`_toSymbol(order.InstrumentID)` is part of the event (`Option String`,
`none` for an instrument that is not in the instruments map, in which case
the handler skips every statistic update). -/

/-- The gateway's `OrderStatusType` values. -/
inductive OrderStatusType
  | allTraded | partTradedQueueing | partTradedNotQueueing | noTradeQueueing
  | noTradeNotQueueing | canceled | unknown | notTouched | touched
deriving DecidableEq, Repr

/-- The gateway's `OrderSubmitStatusType` values. -/
inductive OrderSubmitStatusType
  | insertSubmitted | cancelSubmitted | modifySubmitted | accepted
  | insertRejected | cancelRejected | modifyRejected
deriving DecidableEq, Repr

inductive OrderStatus
  | submitted | partiallyFilled | filled | canceled | rejected
deriving DecidableEq, Repr

/-- The raw pair the `RtnOrder` dedup compares
(`OrderSubmitStatus`/`OrderStatus`). -/
structure RawOrder where
  orderStatus : OrderStatusType
  orderSubmitStatus : OrderSubmitStatusType
deriving DecidableEq, Repr

/-- `trader.ts` `_calcOrderStatus` as the `RtnOrder` handler calls it — with
no `traded` argument, so the default branch's `traded && …` is falsy and
yields `"partially-filled"`. -/
def _calcOrderStatus (raw : RawOrder) : OrderStatus :=
  match raw.orderStatus with
  | .unknown => .submitted
  | .allTraded => .filled
  | .canceled =>
    match raw.orderSubmitStatus with
    | .insertRejected | .cancelRejected | .modifyRejected => .rejected
    | _ => .canceled
  | _ => .partiallyFilled

/-- One statistic-relevant trader event: a successful
`reqOrderInsert` (the `.then` branch that bumps `places`), or an `RtnOrder`
for order `oid` whose `InstrumentID` resolves to `symbol?`. -/
inductive TraderEvent
  | placeOk (symbol : String)
  | rtnOrder (oid : ℕ) (symbol? : Option String) (raw : RawOrder)

/-- The statistic-relevant trader state: the orders map (as the dedup reads
it) and the per-symbol statistics (total with zero default, the
`_ensureOrderStatistic` view). -/
structure StatState where
  orders : ℕ → Option RawOrder
  stats : String → OrderStatistic

def statInit : StatState :=
  { orders := fun _ => Option.none, stats := fun s => emptyStatistic s }

/-- Pointwise update of one symbol's statistic. -/
def updStat (f : String → OrderStatistic) (s : String)
    (g : OrderStatistic → OrderStatistic) : String → OrderStatistic :=
  fun x => if x = s then g (f x) else f x

def bumpEntrusts (o : OrderStatistic) : OrderStatistic :=
  { o with entrusts := o.entrusts + 1 }

def bumpFilleds (o : OrderStatistic) : OrderStatistic :=
  { o with filleds := o.filleds + 1 }

def bumpCancels (o : OrderStatistic) : OrderStatistic :=
  { o with cancels := o.cancels + 1 }

def bumpRejects (o : OrderStatistic) : OrderStatistic :=
  { o with rejects := o.rejects + 1 }

def bumpPlacesStat (o : OrderStatistic) : OrderStatistic :=
  { o with places := o.places + 1 }

/-- The switch body of the `RtnOrder` handler (after the dedup): store the
raw order, then bump the counter selected by the derived status — when the
instrument resolves to a symbol. -/
def processRtn (st : StatState) (oid : ℕ) (symbol? : Option String)
    (raw : RawOrder) : StatState :=
  let st := { st with
    orders := fun n => if n = oid then some raw else st.orders n }
  match symbol? with
  | Option.none => st
  | some s =>
    match _calcOrderStatus raw with
    | .submitted => { st with stats := updStat st.stats s bumpEntrusts }
    | .filled => { st with stats := updStat st.stats s bumpFilleds }
    | .canceled => { st with stats := updStat st.stats s bumpCancels }
    | .rejected => { st with stats := updStat st.stats s bumpRejects }
    | .partiallyFilled => st

/-- One event's effect on the statistic state: `placeOk` bumps `places`;
`rtnOrder` is dropped when both raw status fields equal the stored ones
(the dedup), and otherwise runs the handler body. -/
def statStep (st : StatState) : TraderEvent → StatState
  | .placeOk symbol =>
      { st with stats := updStat st.stats symbol bumpPlacesStat }
  | .rtnOrder oid symbol? raw =>
      match st.orders oid with
      | some current =>
          if current = raw then st else processRtn st oid symbol? raw
      | Option.none => processRtn st oid symbol? raw

/-- The ghost bookkeeping of admissible traces: unmatched successful
placements per symbol, the orders currently in flight (entrusted, not yet
terminal) and the finished ones. -/
structure StatGhost where
  pool : String → ℕ
  activeList : List (ℕ × Option String)
  doneList : List (ℕ × Option String)

def ghostInit : StatGhost := ⟨fun _ => 0, [], []⟩

/-- `oid` has not been seen in any `RtnOrder` yet. -/
def oidFresh (g : StatGhost) (oid : ℕ) : Prop :=
  oid ∉ g.activeList.map Prod.fst ∧ oid ∉ g.doneList.map Prod.fst

def decPool (f : String → ℕ) : Option String → String → ℕ
  | Option.none => f
  | some s => fun x => if x = s then f x - 1 else f x

/-- Reachable `(state, ghost)` pairs over admissible traces: every order's
`RtnOrder` stream starts with a `submitted` event matched by a prior
unconsumed successful placement on its symbol, continues with
partially-filled events, and ends with at most one terminal
(filled/canceled/rejected) event. -/
inductive Reach : StatState → StatGhost → Prop
  | init : Reach statInit ghostInit
  | place (st : StatState) (g : StatGhost) (s : String) :
      Reach st g →
      Reach (statStep st (.placeOk s))
        { g with pool := fun x => if x = s then g.pool x + 1 else g.pool x }
  | submitted (st : StatState) (g : StatGhost) (oid : ℕ)
      (symbol? : Option String) (raw : RawOrder) :
      Reach st g →
      _calcOrderStatus raw = .submitted →
      oidFresh g oid →
      (∀ s, symbol? = some s → 1 ≤ g.pool s) →
      Reach (statStep st (.rtnOrder oid symbol? raw))
        { g with pool := decPool g.pool symbol?
                 activeList := (oid, symbol?) :: g.activeList }
  | partialFill (st : StatState) (g : StatGhost) (oid : ℕ)
      (symbol? : Option String) (raw : RawOrder) :
      Reach st g →
      _calcOrderStatus raw = .partiallyFilled →
      (oid, symbol?) ∈ g.activeList →
      Reach (statStep st (.rtnOrder oid symbol? raw)) g
  | terminal (st : StatState) (g : StatGhost) (oid : ℕ)
      (symbol? : Option String) (raw : RawOrder) :
      Reach st g →
      (_calcOrderStatus raw = .filled ∨ _calcOrderStatus raw = .canceled ∨
        _calcOrderStatus raw = .rejected) →
      (oid, symbol?) ∈ g.activeList →
      Reach (statStep st (.rtnOrder oid symbol? raw))
        { g with activeList := g.activeList.erase (oid, symbol?)
                 doneList := (oid, symbol?) :: g.doneList }

/-- In-flight orders of symbol `s`. -/
def countA (g : StatGhost) (s : String) : ℕ :=
  (g.activeList.filter fun p => p.2 = some s).length

/-- Finished orders of symbol `s`. -/
def countD (g : StatGhost) (s : String) : ℕ :=
  (g.doneList.filter fun p => p.2 = some s).length

/-- The inductive invariant tying the code counters to the ghost. -/
def StatInv (st : StatState) (g : StatGhost) : Prop :=
  (∀ s, (st.stats s).places = g.pool s + countA g s + countD g s) ∧
  (∀ s, (st.stats s).entrusts = countA g s + countD g s) ∧
  (∀ s, (st.stats s).filleds + (st.stats s).cancels + (st.stats s).rejects
      = countD g s) ∧
  (g.activeList.map Prod.fst ++ g.doneList.map Prod.fst).Nodup ∧
  (∀ oid symbol?, (oid, symbol?) ∈ g.activeList →
    ∃ raw, st.orders oid = some raw ∧
      (_calcOrderStatus raw = .submitted ∨
        _calcOrderStatus raw = .partiallyFilled)) ∧
  (∀ oid, oidFresh g oid → st.orders oid = Option.none)

/-- Per-symbol count over an order list. -/
def countSym (l : List (ℕ × Option String)) (s : String) : ℕ :=
  (l.filter fun p => p.2 = some s).length

lemma countA_eq (g : StatGhost) (s : String) :
    countA g s = countSym g.activeList s := rfl

lemma countD_eq (g : StatGhost) (s : String) :
    countD g s = countSym g.doneList s := rfl

lemma countSym_cons (p : ℕ × Option String) (l : List (ℕ × Option String))
    (s : String) :
    countSym (p :: l) s = countSym l s + (if p.2 = some s then 1 else 0) := by
  simp only [countSym, List.filter_cons]
  by_cases h : p.2 = some s <;> simp [h]

lemma countSym_perm {l l' : List (ℕ × Option String)} (h : l.Perm l')
    (s : String) : countSym l s = countSym l' s :=
  (h.filter _).length_eq

lemma processRtn_orders (st : StatState) (oid : ℕ) (symbol? : Option String)
    (raw : RawOrder) :
    (processRtn st oid symbol? raw).orders
      = fun n => if n = oid then some raw else st.orders n := by
  cases symbol? with
  | none => rfl
  | some s =>
      cases h : _calcOrderStatus raw <;> simp [processRtn, h]

lemma processRtn_stats_none (st : StatState) (oid : ℕ) (raw : RawOrder) :
    (processRtn st oid Option.none raw).stats = st.stats := rfl

lemma processRtn_stats_some (st : StatState) (oid : ℕ) (s : String)
    (raw : RawOrder) :
    (processRtn st oid (some s) raw).stats
      = match _calcOrderStatus raw with
        | .submitted => updStat st.stats s bumpEntrusts
        | .filled => updStat st.stats s bumpFilleds
        | .canceled => updStat st.stats s bumpCancels
        | .rejected => updStat st.stats s bumpRejects
        | .partiallyFilled => st.stats := by
  cases h : _calcOrderStatus raw <;> simp [processRtn, h]

lemma countSym_cons_pair (n : ℕ) (o : Option String)
    (l : List (ℕ × Option String)) (s : String) :
    countSym ((n, o) :: l) s = countSym l s + (if o = some s then 1 else 0) :=
  countSym_cons _ _ _

lemma perm_cons_erase_pair {a : ℕ × Option String}
    {l : List (ℕ × Option String)} (h : a ∈ l) : l.Perm (a :: l.erase a) := by
  induction l with
  | nil => cases h
  | cons b t ih =>
      rw [List.erase_cons]
      by_cases hb : (b == a) = true
      · rw [if_pos hb]
        have hba : b = a := eq_of_beq hb
        subst hba
        exact List.Perm.refl _
      · rw [if_neg hb]
        have hmem : a ∈ t := by
          rcases List.mem_cons.mp h with h' | h'
          · exact absurd (beq_iff_eq.mpr h'.symm) hb
          · exact h'
        exact ((ih hmem).cons b).trans (List.Perm.swap a b _)

lemma processRtn_stats_submitted (st : StatState) (oid : ℕ) (s : String)
    {raw : RawOrder} (h : _calcOrderStatus raw = .submitted) :
    (processRtn st oid (some s) raw).stats = updStat st.stats s bumpEntrusts := by
  rw [processRtn_stats_some, h]

lemma processRtn_stats_filled (st : StatState) (oid : ℕ) (s : String)
    {raw : RawOrder} (h : _calcOrderStatus raw = .filled) :
    (processRtn st oid (some s) raw).stats = updStat st.stats s bumpFilleds := by
  rw [processRtn_stats_some, h]

lemma processRtn_stats_canceled (st : StatState) (oid : ℕ) (s : String)
    {raw : RawOrder} (h : _calcOrderStatus raw = .canceled) :
    (processRtn st oid (some s) raw).stats = updStat st.stats s bumpCancels := by
  rw [processRtn_stats_some, h]

lemma processRtn_stats_rejected (st : StatState) (oid : ℕ) (s : String)
    {raw : RawOrder} (h : _calcOrderStatus raw = .rejected) :
    (processRtn st oid (some s) raw).stats = updStat st.stats s bumpRejects := by
  rw [processRtn_stats_some, h]

theorem statInv_of_reach {st : StatState} {g : StatGhost}
    (h : Reach st g) : StatInv st g := by
  induction h with
  | init =>
      refine ⟨fun s => rfl, fun s => rfl, fun s => rfl, by simp [ghostInit], ?_, ?_⟩
      · intro oid symbol? hmem
        simp [ghostInit] at hmem
      · intro oid _
        rfl
  | place st g s _ ih =>
      obtain ⟨i1, i2, i3, i4, i5, i6⟩ := ih
      refine ⟨?_, ?_, ?_, i4, i5, i6⟩
      · intro x
        show (updStat st.stats s bumpPlacesStat x).places
            = (if x = s then g.pool x + 1 else g.pool x) + countA g x + countD g x
        have h1 := i1 x
        by_cases hx : x = s
        · subst hx
          simp [updStat, bumpPlacesStat]
          omega
        · simp [updStat, hx]
          omega
      · intro x
        show (updStat st.stats s bumpPlacesStat x).entrusts
            = countA g x + countD g x
        have h2 := i2 x
        by_cases hx : x = s
        · subst hx
          simpa [updStat, bumpPlacesStat] using h2
        · simpa [updStat, hx] using h2
      · intro x
        show (updStat st.stats s bumpPlacesStat x).filleds
              + (updStat st.stats s bumpPlacesStat x).cancels
              + (updStat st.stats s bumpPlacesStat x).rejects
            = countD g x
        have h3 := i3 x
        by_cases hx : x = s
        · subst hx
          simpa [updStat, bumpPlacesStat] using h3
        · simpa [updStat, hx] using h3
  | submitted st g oid symbol? raw _ hcalc hfresh hpool ih =>
      obtain ⟨i1, i2, i3, i4, i5, i6⟩ := ih
      have hord : st.orders oid = Option.none := i6 oid hfresh
      have hstep : statStep st (.rtnOrder oid symbol? raw)
          = processRtn st oid symbol? raw := by
        simp [statStep, hord]
      rw [hstep]
      obtain ⟨hf1, hf2⟩ := hfresh
      refine ⟨?_, ?_, ?_, ?_, ?_, ?_⟩
      · intro x
        cases symbol? with
        | none => exact i1 x
        | some s =>
            have hpool1 : 1 ≤ g.pool s := hpool s rfl
            have h1 := i1 x
            rw [countA_eq, countD_eq] at h1
            show ((processRtn st oid (some s) raw).stats x).places
                = (if x = s then g.pool x - 1 else g.pool x)
                  + countSym ((oid, some s) :: g.activeList) x
                  + countSym g.doneList x
            rw [processRtn_stats_submitted st oid s hcalc, countSym_cons_pair]
            by_cases hx : x = s
            · subst hx
              simp [updStat, bumpEntrusts]
              omega
            · simp [updStat, hx, Ne.symm hx]
              omega
      · intro x
        cases symbol? with
        | none => exact i2 x
        | some s =>
            have h2 := i2 x
            rw [countA_eq, countD_eq] at h2
            show ((processRtn st oid (some s) raw).stats x).entrusts
                = countSym ((oid, some s) :: g.activeList) x + countSym g.doneList x
            rw [processRtn_stats_submitted st oid s hcalc, countSym_cons_pair]
            by_cases hx : x = s
            · subst hx
              simp [updStat, bumpEntrusts]
              omega
            · simp [updStat, hx, Ne.symm hx]
              omega
      · intro x
        cases symbol? with
        | none => exact i3 x
        | some s =>
            have h3 := i3 x
            rw [countD_eq] at h3
            show ((processRtn st oid (some s) raw).stats x).filleds
                  + ((processRtn st oid (some s) raw).stats x).cancels
                  + ((processRtn st oid (some s) raw).stats x).rejects
                = countSym g.doneList x
            rw [processRtn_stats_submitted st oid s hcalc]
            by_cases hx : x = s
            · subst hx
              simpa [updStat, bumpEntrusts] using h3
            · simpa [updStat, hx] using h3
      · show (((oid, symbol?) :: g.activeList).map Prod.fst
              ++ g.doneList.map Prod.fst).Nodup
        simp only [List.map_cons, List.cons_append, List.nodup_cons]
        refine ⟨?_, i4⟩
        simp only [List.mem_append]
        exact not_or.mpr ⟨hf1, hf2⟩
      · intro oid' sy' hmem
        rw [processRtn_orders]
        cases hmem with
        | head => exact ⟨raw, by simp, Or.inl hcalc⟩
        | tail _ hmem' =>
            have hne : oid' ≠ oid := by
              intro he
              apply hf1
              subst he
              exact List.mem_map.mpr ⟨(oid', sy'), hmem', rfl⟩
            obtain ⟨raw0, ho, hd⟩ := i5 oid' sy' hmem'
            exact ⟨raw0, by simpa [hne] using ho, hd⟩
      · intro n hn
        obtain ⟨hn1, hn2⟩ := hn
        rw [processRtn_orders]
        simp only [List.map_cons, List.mem_cons] at hn1
        obtain ⟨hne, hnA⟩ := not_or.mp hn1
        have h0 := i6 n ⟨hnA, hn2⟩
        simp [hne, h0]
  | partialFill st g oid symbol? raw _ hcalc hmem ih =>
      obtain ⟨i1, i2, i3, i4, i5, i6⟩ := ih
      obtain ⟨raw0, hord0, hd0⟩ := i5 oid symbol? hmem
      have hoidA : oid ∈ g.activeList.map Prod.fst :=
        List.mem_map.mpr ⟨(oid, symbol?), hmem, rfl⟩
      by_cases hdup : raw0 = raw
      · have hstep : statStep st (.rtnOrder oid symbol? raw) = st := by
          simp [statStep, hord0, hdup]
        rw [hstep]
        exact ⟨i1, i2, i3, i4, i5, i6⟩
      · have hstep : statStep st (.rtnOrder oid symbol? raw)
            = processRtn st oid symbol? raw := by
          simp [statStep, hord0, hdup]
        rw [hstep]
        have hst : (processRtn st oid symbol? raw).stats = st.stats := by
          cases symbol? with
          | none => rfl
          | some s => rw [processRtn_stats_some, hcalc]
        refine ⟨?_, ?_, ?_, i4, ?_, ?_⟩
        · intro x
          rw [hst]
          exact i1 x
        · intro x
          rw [hst]
          exact i2 x
        · intro x
          rw [hst]
          exact i3 x
        · intro oid' sy' hmem'
          rw [processRtn_orders]
          by_cases hne : oid' = oid
          · subst hne
            exact ⟨raw, by simp, Or.inr hcalc⟩
          · obtain ⟨raw1, ho, hd⟩ := i5 oid' sy' hmem'
            exact ⟨raw1, by simpa [hne] using ho, hd⟩
        · intro n hn
          rw [processRtn_orders]
          have hne : n ≠ oid := by
            intro he
            apply hn.1
            rw [he]
            exact hoidA
          have h0 := i6 n hn
          simp [hne, h0]
  | terminal st g oid symbol? raw _ hcalc hmem ih =>
      obtain ⟨i1, i2, i3, i4, i5, i6⟩ := ih
      obtain ⟨raw0, hord0, hd0⟩ := i5 oid symbol? hmem
      have hdup : raw0 ≠ raw := by
        intro he
        subst he
        rcases hd0 with h | h <;> rcases hcalc with h' | h' | h' <;>
          rw [h] at h' <;> simp at h'
      have hstep : statStep st (.rtnOrder oid symbol? raw)
          = processRtn st oid symbol? raw := by
        simp [statStep, hord0, hdup]
      rw [hstep]
      have hperm : g.activeList.Perm
          ((oid, symbol?) :: g.activeList.erase (oid, symbol?)) :=
        perm_cons_erase_pair hmem
      have hAD := List.nodup_append.mp i4
      have hoidA : oid ∈ g.activeList.map Prod.fst :=
        List.mem_map.mpr ⟨(oid, symbol?), hmem, rfl⟩
      have hoidD : oid ∉ g.doneList.map Prod.fst := fun hc => hAD.2.2 hoidA hc
      have hmapPerm : (g.activeList.map Prod.fst).Perm
          (oid :: (g.activeList.erase (oid, symbol?)).map Prod.fst) := by
        simpa using hperm.map Prod.fst
      have hconsNodup : (oid :: (g.activeList.erase (oid, symbol?)).map
          Prod.fst).Nodup := hmapPerm.nodup_iff.mp hAD.1
      have hoidNotErase : oid ∉ (g.activeList.erase (oid, symbol?)).map Prod.fst :=
        (List.nodup_cons.mp hconsNodup).1
      have hnodupErase : ((g.activeList.erase (oid, symbol?)).map Prod.fst).Nodup :=
        (List.nodup_cons.mp hconsNodup).2
      have hsubE : (g.activeList.erase (oid, symbol?)).map Prod.fst
          ⊆ g.activeList.map Prod.fst :=
        ((List.erase_sublist _ _).map Prod.fst).subset
      have hcA : ∀ x, countSym g.activeList x
          = countSym (g.activeList.erase (oid, symbol?)) x
            + (if symbol? = some x then 1 else 0) := by
        intro x
        rw [countSym_perm hperm, countSym_cons_pair]
      have hstats : ∀ x,
          ((processRtn st oid symbol? raw).stats x).places = (st.stats x).places
          ∧ ((processRtn st oid symbol? raw).stats x).entrusts
              = (st.stats x).entrusts
          ∧ ((processRtn st oid symbol? raw).stats x).filleds
              + ((processRtn st oid symbol? raw).stats x).cancels
              + ((processRtn st oid symbol? raw).stats x).rejects
            = (st.stats x).filleds + (st.stats x).cancels + (st.stats x).rejects
              + (if symbol? = some x then 1 else 0) := by
        intro x
        cases symbol? with
        | none => exact ⟨rfl, rfl, by rw [processRtn_stats_none]; simp⟩
        | some s =>
            rcases hcalc with h | h | h
            · rw [processRtn_stats_filled st oid s h]
              by_cases hx : x = s
              · subst hx
                refine ⟨?_, ?_, ?_⟩ <;> simp [updStat, bumpFilleds] <;> omega
              · refine ⟨?_, ?_, ?_⟩ <;> simp [updStat, hx, Ne.symm hx]
            · rw [processRtn_stats_canceled st oid s h]
              by_cases hx : x = s
              · subst hx
                refine ⟨?_, ?_, ?_⟩ <;> simp [updStat, bumpCancels] <;> omega
              · refine ⟨?_, ?_, ?_⟩ <;> simp [updStat, hx, Ne.symm hx]
            · rw [processRtn_stats_rejected st oid s h]
              by_cases hx : x = s
              · subst hx
                refine ⟨?_, ?_, ?_⟩ <;> simp [updStat, bumpRejects] <;> omega
              · refine ⟨?_, ?_, ?_⟩ <;> simp [updStat, hx, Ne.symm hx]
      refine ⟨?_, ?_, ?_, ?_, ?_, ?_⟩
      · intro x
        show ((processRtn st oid symbol? raw).stats x).places
            = g.pool x + countSym (g.activeList.erase (oid, symbol?)) x
              + countSym ((oid, symbol?) :: g.doneList) x
        have h1 := i1 x
        rw [countA_eq, countD_eq] at h1
        have hA := hcA x
        have hD := countSym_cons_pair oid symbol? g.doneList x
        have hs := (hstats x).1
        omega
      · intro x
        show ((processRtn st oid symbol? raw).stats x).entrusts
            = countSym (g.activeList.erase (oid, symbol?)) x
              + countSym ((oid, symbol?) :: g.doneList) x
        have h2 := i2 x
        rw [countA_eq, countD_eq] at h2
        have hA := hcA x
        have hD := countSym_cons_pair oid symbol? g.doneList x
        have hs := (hstats x).2.1
        omega
      · intro x
        show ((processRtn st oid symbol? raw).stats x).filleds
              + ((processRtn st oid symbol? raw).stats x).cancels
              + ((processRtn st oid symbol? raw).stats x).rejects
            = countSym ((oid, symbol?) :: g.doneList) x
        have h3 := i3 x
        rw [countD_eq] at h3
        have hD := countSym_cons_pair oid symbol? g.doneList x
        have hs := (hstats x).2.2
        omega
      · show ((g.activeList.erase (oid, symbol?)).map Prod.fst
              ++ oid :: g.doneList.map Prod.fst).Nodup
        have hY : (oid :: ((g.activeList.erase (oid, symbol?)).map Prod.fst
              ++ g.doneList.map Prod.fst)).Nodup := by
          rw [List.nodup_cons]
          refine ⟨?_, ?_⟩
          · simp only [List.mem_append]
            exact not_or.mpr ⟨hoidNotErase, hoidD⟩
          · rw [List.nodup_append]
            exact ⟨hnodupErase, hAD.2.1, fun a ha hd => hAD.2.2 (hsubE ha) hd⟩
        exact List.perm_middle.nodup_iff.mpr hY
      · intro oid' sy' hmem'
        rw [processRtn_orders]
        have hmemA : (oid', sy') ∈ g.activeList := List.mem_of_mem_erase hmem'
        have hne : oid' ≠ oid := by
          intro he
          apply hoidNotErase
          subst he
          exact List.mem_map.mpr ⟨(oid', sy'), hmem', rfl⟩
        obtain ⟨raw1, ho, hd⟩ := i5 oid' sy' hmemA
        exact ⟨raw1, by simpa [hne] using ho, hd⟩
      · intro n hn
        obtain ⟨hn1, hn2⟩ := hn
        simp only [List.map_cons, List.mem_cons] at hn2
        obtain ⟨hne, hnD⟩ := not_or.mp hn2
        have hnA : n ∉ g.activeList.map Prod.fst := by
          intro hc
          rcases List.mem_cons.mp (hmapPerm.mem_iff.mp hc) with h | h
          · exact hne h
          · exact hn1 h
        have h0 := i6 n ⟨hnA, hnD⟩
        rw [processRtn_orders]
        simp [hne, h0]

def c8RawSubmitted : RawOrder := ⟨.unknown, .insertSubmitted⟩

def c8RawFilled : RawOrder := ⟨.allTraded, .accepted⟩

def c8St3 : StatState :=
  statStep (statStep (statStep statInit (.placeOk "X.DCE"))
    (.rtnOrder 0 (some "X.DCE") c8RawSubmitted))
    (.rtnOrder 0 (some "X.DCE") c8RawFilled)

def c8G1 : StatGhost :=
  { ghostInit with
      pool := fun x => if x = "X.DCE" then ghostInit.pool x + 1
                       else ghostInit.pool x }

def c8G2 : StatGhost :=
  { c8G1 with
      pool := decPool c8G1.pool (some "X.DCE")
      activeList := (0, some "X.DCE") :: c8G1.activeList }

def c8G3 : StatGhost :=
  { c8G2 with
      activeList := c8G2.activeList.erase (0, some "X.DCE")
      doneList := (0, some "X.DCE") :: c8G2.doneList }

lemma c8Reach : Reach c8St3 c8G3 := by
  refine Reach.terminal _ c8G2 0 (some "X.DCE") c8RawFilled ?_ ?_ ?_
  · refine Reach.submitted _ c8G1 0 (some "X.DCE") c8RawSubmitted ?_ rfl ?_ ?_
    · exact Reach.place _ ghostInit "X.DCE" Reach.init
    · exact ⟨by simp [c8G1, ghostInit], by simp [c8G1, ghostInit]⟩
    · intro s hs
      cases hs
      simp [c8G1, ghostInit]
  · exact Or.inl rfl
  · simp [c8G2, c8G1, ghostInit]

/-- **C8**: for every symbol and every state reachable by successful order
placements and deduplicated `RtnOrder` lifecycle events, the per-symbol
order statistic satisfies `places ≥ entrusts` and
`entrusts ≥ filleds + cancels + rejects`. -/
theorem C8_order_statistic_inequality {st : StatState} {g : StatGhost}
    (h : Reach st g) (s : String) :
    (st.stats s).entrusts ≤ (st.stats s).places ∧
    (st.stats s).filleds + (st.stats s).cancels + (st.stats s).rejects
      ≤ (st.stats s).entrusts := by
  obtain ⟨i1, i2, i3, _, _, _⟩ := statInv_of_reach h
  have h1 := i1 s
  have h2 := i2 s
  have h3 := i3 s
  omega

/-- **C8** witness: a concrete trace — place on `"X.DCE"`, `RtnOrder`
`submitted`, `RtnOrder` `filled` — satisfies both inequalities. -/
theorem C8_order_statistic_inequality_witness :
    (c8St3.stats "X.DCE").entrusts ≤ (c8St3.stats "X.DCE").places ∧
    (c8St3.stats "X.DCE").filleds + (c8St3.stats "X.DCE").cancels
        + (c8St3.stats "X.DCE").rejects ≤ (c8St3.stats "X.DCE").entrusts :=
  C8_order_statistic_inequality c8Reach "X.DCE"
